import Mathlib

/-!
# inkotools-bot: a shallow embedding of `main.go`

Go strings are modelled by Lean strings (sequences of Unicode scalar values,
that is, well-formed UTF-8 text), Go `int` by `Int`, a Go slice by a `List`.
Code that indexes or slices out of bounds, or asserts a wrong type, ends in a `Panic`
where the Go runtime panics.
-/

set_option linter.dupNamespace false

namespace Inkotools

/-! ## Helper functions (`main.go`, "HELPER FUNCTIONS") -/

/-- Go `unicode.IsSpace`: the Latin-1 spaces `\t \n \v \f \r`, space, U+0085,
U+00A0, and the other code points with the White_Space property. -/
def isSpace (c : Char) : Bool :=
  let n := c.toNat
  (9 ≤ n && n ≤ 13) || n == 0x20 || n == 0x85 || n == 0xA0 || n == 0x1680 ||
  (0x2000 ≤ n && n ≤ 0x200A) || n == 0x2028 || n == 0x2029 || n == 0x202F ||
  n == 0x205F || n == 0x3000

/-- Go `strings.TrimSpace` on the characters of a string: all leading and
all trailing white space removed. -/
def trimSpaceL (s : List Char) : List Char :=
  (s.dropWhile isSpace).rdropWhile isSpace

/-- Go `strings.TrimSpace`. -/
def trimSpace (s : String) : String := ⟨trimSpaceL s.data⟩

/-- Go `strings.SplitN(s, " ", 2)` on the characters of a string: the text
before the first space and the text after it, or the whole text alone when it
has no space. -/
def splitN2L (s : List Char) : List (List Char) :=
  match s.dropWhile (fun c => c != ' ') with
  | [] => [s]
  | _ :: post => [s.takeWhile (fun c => c != ' '), post]

/-- Go `strings.SplitN(s, " ", 2)`. -/
def splitN2 (s : String) : List String := (splitN2L s.data).map String.mk

/-- The function `splitArgs`: split first arg from args. -/
def splitArgs (args : String) : String × String :=
  let a := splitN2 args
  if a.length < 2 then
    (a.headD "", "")
  else
    (a.headD "", trimSpace (a.getD 1 ""))

/-- The decoding of a callback's data in `main`:
`mode, args := splitArgs(u.CallbackData())`, `action, rawCmd := splitArgs(args)`. -/
def decodeCallback (data : String) : String × String × String :=
  let (mode, args) := splitArgs data
  let (action, rawCmd) := splitArgs args
  (mode, action, rawCmd)

/-- Go `sort.Ints`. -/
def sortInts (lst : List Int) : List Int := lst.insertionSort (fun a b => a ≤ b)

/-- Go `sort.SearchInts(a, x)` on a sorted slice: the smallest index `i` with
`a[i] >= x`, or `len(a)` when there is none. -/
def searchInts (a : List Int) (x : Int) : Nat := a.findIdx (fun y => decide (x ≤ y))

/-- The function `intInList`: search int in list of int. -/
def intInList (val : Int) (lst : List Int) : Bool :=
  let lst := sortInts lst
  let idx := searchInts lst val
  !(idx == lst.length || some val != lst[idx]?)

/-- The constant `WARNCHAR`, the bytes E2 80 BC: the character U+203C. -/
def WARNCHAR : String := "‼"

/-- The function `fmtErr`: print error in message. -/
def fmtErr (e : String) : String :=
  "\n<b>ERROR</b>" ++ WARNCHAR ++ "\n<code>" ++ e ++ "</code>\n"

/-- The function `printUpdated`, at the formatted current time `t`. -/
def printUpdated (t : String) : String :=
  "\n<i>Updated:</i> <code>" ++ t ++ "</code>"

/-! ## Data types of the remote API -/

/-- Go type `Pair`. -/
structure Pair where
  Pair : Int
  State : String
  Len : Int
deriving DecidableEq, Repr

/-- Go type `Port`. -/
structure Port where
  Port : Int
  PortType : String
  State : Bool
  Speed : String
  Link : Bool
  Status : String
  Learning : Bool
  Autodowngrade : Bool
  Description : String
  Cable : List Pair
deriving DecidableEq, Repr

/-- Go type `PortBandwidth`. -/
structure PortBandwidth where
  RX : Nat
  TX : Nat
deriving DecidableEq, Repr

/-- Go type `PortError`. -/
structure PortError where
  Name : String
  Count : Int
deriving DecidableEq, Repr

/-- Go type `PortCounters`. -/
structure PortCounters where
  TotalRX : Nat
  TotalTX : Nat
  SpeedRX : Nat
  SpeedTX : Nat
  ErrorsRX : List PortError
  ErrorsTX : List PortError
deriving DecidableEq, Repr

/-- Go type `PortVlan`. -/
structure PortVlan where
  Port : Int
  Untagged : List Int
  Tagged : List Int
deriving DecidableEq, Repr

/-- Go type `PortMac`. -/
structure PortMac where
  Port : Int
  VlanID : Int
  Mac : String
deriving DecidableEq, Repr

/-- Go type `PortACL`. -/
structure PortACL where
  Port : Int
  ProfileID : Int
  AccessID : Int
  IP : String
  Mask : String
  Mode : String
deriving DecidableEq, Repr

/-- Go type `ARPEntry`; `==` on it compares the four fields. -/
structure ARPEntry where
  IP : String
  Mac : String
  VlanID : Int
  State : Bool
deriving DecidableEq, Repr

/-- A run-time panic of the Go program. -/
inductive Panic where
  | indexOutOfRange
  | sliceBounds
  | typeAssertion
  | nilDereference
deriving DecidableEq, Repr

/-- The result of one request: `Except.error e` when `requestAPI` returns `err != nil`
with message `e`, else the value `mapstructure.Decode` leaves in the target variable. -/
abbrev Fetch (α : Type) := Except String α

/-- The remote management API as `portSummary` sees it, for one switch and port.
`portList` and `multicast` carry `none` when the response's `data` is not a JSON object
(the type assertion `resp["data"].(map[string]interface{})` then panics), else the decoded
`access_ports`, and `member` and `source`. An ARP search gets the number of ARP searches
issued before it, so repeated searches may answer differently. -/
structure API where
  ports : Fetch (List Port)
  bandwidth : Fetch PortBandwidth
  counters : Fetch PortCounters
  vlan : Fetch PortVlan
  portList : Fetch (Option (List Int))
  acl : Fetch (List PortACL)
  multicast : Fetch (Option (List Int × List Int))
  mac : Fetch (List PortMac)
  arpByIP : Nat → String → Fetch (List ARPEntry)
  arpByMac : Nat → String → Fetch (List ARPEntry)

/-- The requests `portSummary` sends. -/
inductive Request where
  | ports
  | bandwidth
  | counters
  | vlan
  | portList
  | acl
  | multicast
  | mac
  | arpByIP (ip : String)
  | arpByMac (mac : String)
deriving DecidableEq, Repr

/-- The pieces `portSummary` appends to `res`: a rendered template with its object,
or one of the fixed texts. -/
inductive Piece where
  | err (e : String)
  | ports (l : List Port)
  | bandwidth (b : PortBandwidth)
  | counters (c : PortCounters)
  | vlan (v : PortVlan)
  | acl (l : List PortACL)
  | noMcastSource
  | mcast (enabled : Bool)
  | mac (l : List PortMac)
  | arp (l : List ARPEntry)
  | updated (t : String)
deriving DecidableEq, Repr

/-- The templates of `templates/*` (not part of the source file): `fmtObj(obj, name)`. -/
structure Templates where
  ports : List Port → String
  bandwidth : PortBandwidth → String
  counters : PortCounters → String
  vlan : PortVlan → String
  acl : List PortACL → String
  mac : List PortMac → String
  arp : List ARPEntry → String

/-- The text of one piece. -/
def Piece.render (tpl : Templates) : Piece → String
  | .err e => fmtErr e
  | .ports l => tpl.ports l
  | .bandwidth b => tpl.bandwidth b
  | .counters c => tpl.counters c
  | .vlan v => tpl.vlan v
  | .acl l => tpl.acl l
  | .noMcastSource => "\n<b>No multicast source ports</b>" ++ WARNCHAR ++ "\n"
  | .mcast enabled =>
    "\n<i>Multicast: </i><code>" ++ (if enabled then "enabled" else "disabled") ++ "</code>\n"
  | .mac l => tpl.mac l
  | .arp l => tpl.arp l
  | .updated t => printUpdated t

/-- The text of `res`: its pieces in order. -/
def renderAll (tpl : Templates) : List Piece → String
  | [] => ""
  | p :: ps => p.render tpl ++ renderAll tpl ps

/-- The state of a report under construction: the requests sent so far, the pieces of
`res`, the ARP entries gathered (`arpTable`) and the number of ARP searches sent. -/
structure Run where
  requests : List Request
  res : List Piece
  arpTable : List ARPEntry := []
  arpCalls : Nat := 0
deriving Repr

/-- What a call of `portSummary` did: the requests it sent, and the pieces of the text it
returned or the panic that ended it. -/
structure Outcome where
  requests : List Request
  result : Except Panic (List Piece)

/-- A request is sent. -/
def Run.request (s : Run) (r : Request) : Run := { s with requests := s.requests ++ [r] }

/-- A piece is appended to `res`. -/
def Run.add (s : Run) (p : Piece) : Run := { s with res := s.res ++ [p] }

/-- The report is complete (`goto END`, or the end of the block). -/
def Run.done (s : Run) : Outcome := ⟨s.requests, .ok s.res⟩

/-- The program panics. -/
def Run.panic (s : Run) (p : Panic) : Outcome := ⟨s.requests, .error p⟩

/-- One pass of the loop "get arp table for acl permit ip". -/
def arpByACLStep (api : API) (s : Run) (a : PortACL) : Run :=
  if a.Mode = "permit" then
    let s1 := { s.request (Request.arpByIP a.IP) with arpCalls := s.arpCalls + 1 }
    match api.arpByIP s.arpCalls a.IP with
    | .ok arpTmp => { s1 with arpTable := s1.arpTable ++ arpTmp }
    | .error _ => s1.add (Piece.err "Failed to get arp by ip")
  else s

/-- One pass of the loop "get arp for each mac address". -/
def arpByMacStep (api : API) (s : Run) (m : PortMac) : Run :=
  let s1 := { s.request (Request.arpByMac m.Mac) with arpCalls := s.arpCalls + 1 }
  match api.arpByMac s.arpCalls m.Mac with
  | .ok arpTmp => { s1 with arpTable := s1.arpTable ++ arpTmp }
  | .error _ => s1.add (Piece.err "Failed to get arp by mac")

/-- The loop "remove duplicate entries from global arp table" of `portSummary`: an entry
is appended unless an equal one is already in the new table. -/
def dedupARP (arpTmp : List ARPEntry) : List ARPEntry :=
  arpTmp.foldl
    (fun arpTable a => if arpTable.any (fun u => u == a) then arpTable else arpTable ++ [a])
    []

/-- The part of `portSummary` from the MAC table to the label `END`, reached when the port
is an access port and the link is up. -/
def macAndARP (api : API) (acl : List PortACL) (s : Run) : Outcome :=
  let s := s.request Request.mac
  let macTable : List PortMac := match api.mac with
    | .ok m => m
    | .error _ => []
  let s := match api.mac with
    | .ok m => s.add (Piece.mac m)
    | .error _ => s
  if macTable.length = 0 then
    s.done
  else
    let s := acl.foldl (arpByACLStep api) s
    let s := macTable.foldl (arpByMacStep api) s
    let arpTable := dedupARP s.arpTable
    (s.add (Piece.arp arpTable)).done

/-- The part of `portSummary` from the ACL to the label `END`, reached when the port is an
access port; `port0` is `ports[0].Port`. -/
def aclAndMulticast (api : API) (port0 : Int) (linkUp : Bool) (s : Run) : Outcome :=
  let s := s.request Request.acl
  let acl : List PortACL := match api.acl with
    | .ok a => a
    | .error _ => []
  let s := match api.acl with
    | .ok a => s.add (Piece.acl a)
    | .error _ => s
  let s := s.request Request.multicast
  match api.multicast with
  | .ok none => s.panic Panic.typeAssertion
  | r =>
    let s := match r with
      | .ok (some (mcastMemberPorts, mcastSourcePorts)) =>
        let s := if mcastSourcePorts.length = 0 then s.add Piece.noMcastSource else s
        s.add (Piece.mcast (intInList port0 mcastMemberPorts))
      | _ => s
    if !linkUp then
      s.done
    else
      macAndARP api acl s

/-- The branch `style == "full"` of `portSummary`, up to the label `END`. -/
def fullReport (api : API) (ports : List Port) (linkUp : Bool) (s : Run) : Outcome :=
  let s := s.request Request.vlan
  let s := match api.vlan with
    | .ok v => s.add (Piece.vlan v)
    | .error _ => s
  let s := s.request Request.portList
  match api.portList with
  | .ok none => s.panic Panic.typeAssertion
  | r =>
    let accessPorts : List Int := match r with
      | .ok (some l) => l
      | _ => []
    match ports with
    | [] => s.panic Panic.indexOutOfRange
    | p0 :: _ =>
      if !intInList p0.Port accessPorts then
        s.done
      else
        aclAndMulticast api p0.Port linkUp s

/-- The function `portSummary`: get port summary and format it with template. `now` is
the formatted current time that `printUpdated` prints. -/
def portSummary (api : API) (style : String) (now : String) : Outcome :=
  let s : Run := { requests := [], res := [] }
  let s := s.request Request.ports
  match api.ports with
  | .error e => (s.add (Piece.err e)).done
  | .ok ports =>
    let s := s.add (Piece.ports ports)
    let linkUp := ports.any (fun p => p.Link)
    let s := s.request Request.bandwidth
    let s := match api.bandwidth with
      | .ok b => s.add (Piece.bandwidth b)
      | .error _ => s
    let s := s.request Request.counters
    let s := match api.counters with
      | .ok c => s.add (Piece.counters c)
      | .error _ => s
    let o : Outcome := if style = "full" then fullReport api ports linkUp s else s.done
    ⟨o.requests, o.result.map (fun res => res ++ [Piece.updated now])⟩

/-- The text `portSummary` returns, or the panic that ended it. -/
def portSummaryText (tpl : Templates) (api : API) (style : String) (now : String) :
    Except Panic String :=
  (portSummary api style now).result.map (renderAll tpl)

/-! ## The probe manager (`pingerStart`, `pingerStop`) -/

/-- A probe made by `ping.NewPinger`; `id` tells the probes apart (the `n`-th probe made
has `id = n`). -/
structure Pinger where
  id : Nat
  host : String
deriving DecidableEq, Repr

/-- What the probe manager does, in order. -/
inductive PingEvent where
  | stop (p : Pinger)
  | delete (uid : Int)
  | newPinger (host : String)
  | store (uid : Int) (p : Pinger)
  | run (uid : Int) (p : Pinger)
deriving DecidableEq, Repr

/-- The global map `Pingers`, the number of probes made so far, and the log of what the
probe manager did. -/
structure PingState where
  Pingers : Int → Option Pinger
  made : Nat
  log : List PingEvent

/-- The state `initBot` leaves: `Pingers = make(map[int64]ping.Pinger)`. -/
def initPingers : PingState := ⟨fun _ => none, 0, []⟩

/-- The function `pingerStop`: stop user pinger. -/
def pingerStop (uid : Int) (s : PingState) : PingState :=
  match s.Pingers uid with
  | some p =>
    { s with Pingers := fun u => if u = uid then none else s.Pingers u,
             log := s.log ++ [PingEvent.stop p, PingEvent.delete uid] }
  | none => s

/-- The function `pingerStart`: start user pinger. `newPinger` is the result of
`ping.NewPinger(host)`: an error message when the construction fails. The returned
`Option String` is the returned `error`. -/
def pingerStart (uid : Int) (host : String) (newPinger : Except String Unit)
    (s : PingState) : PingState × Option String :=
  let s := if (s.Pingers uid).isSome then pingerStop uid s else s
  let s := { s with log := s.log ++ [PingEvent.newPinger host] }
  match newPinger with
  | .error e => (s, some e)
  | .ok _ =>
    let p : Pinger := ⟨s.made, host⟩
    ({ Pingers := fun u => if u = uid then some p else s.Pingers u,
       made := s.made + 1,
       log := s.log ++ [PingEvent.store uid p, PingEvent.run uid p] }, none)

/-- The probes that were started (`go p.Run()`) and not stopped (`p.Stop()`), with the
user they were started for. -/
def running (log : List PingEvent) : List (Int × Pinger) :=
  log.foldl
    (fun live e => match e with
      | .run uid p => live ++ [(uid, p)]
      | .stop p => live.filter (fun q => decide (q.2 ≠ p))
      | _ => live)
    []

/-- A call of the probe manager. -/
inductive PingCall where
  | start (uid : Int) (host : String) (newPinger : Except String Unit)
  | stop (uid : Int)

/-- The state after a call. -/
def PingCall.apply (s : PingState) : PingCall → PingState
  | .start uid host newPinger => (pingerStart uid host newPinger s).1
  | .stop uid => pingerStop uid s

/-- The state after a sequence of calls, from the state `initBot` leaves. -/
def runCalls (calls : List PingCall) : PingState := calls.foldl PingCall.apply initPingers

/-- The registry agrees with the running probes: a probe runs for a user exactly when it
is the user's entry of `Pingers`, and the running probes have different `id`s, all below
the number of probes made. -/
def PingState.consistent (s : PingState) : Prop :=
  (∀ uid p, (uid, p) ∈ running s.log ↔ s.Pingers uid = some p) ∧
  ((running s.log).map (fun q => q.2.id)).Nodup ∧
  (∀ q ∈ running s.log, q.2.id < s.made)

/-! ## The dispatcher (`main`), callback updates -/

/-- Go type `User`. -/
structure User where
  Name : String
  Mode : String
deriving DecidableEq, Repr

/-- The fields of `CFG` the dispatcher uses. -/
structure Config where
  Admin : Int
  Users : Int → Option User

/-- The rows of an inline keyboard (`kb.InlineKeyboard`): label and callback data. -/
abbrev Keyboard := List (List (String × String))

/-- What a mode handler returns, or the panic that ended it. -/
abbrev Reply := Except Panic (String × Keyboard)

/-- The mode handlers the callback branch calls; what they return depends on the remote
API and on the templates. -/
structure Handlers where
  rawHandler : String → Reply
  searchHandler : String → Int → Reply

/-- What the dispatcher does: the handlers it runs and its transport calls. -/
inductive Effect where
  | rawHandler (raw : String)
  | searchHandler (kw : String) (page : Int)
  | sendMessage (id : Int) (text : String) (kb : Keyboard)
  | sendTo (id : Int) (text : String)
  | editTextAndKeyboard (text : String) (kb : Keyboard)
  | editText (text : String)
  | callbackDone
  | adminHandler (msg : String)
  | pingHandler (msg : String) (uid : Int)
  | newUserHandler (id : Int)
  | forward (id : Int)
deriving DecidableEq, Repr

/-- A handler is run. -/
def Effect.isHandler : Effect → Bool
  | .rawHandler _ | .searchHandler _ _ | .adminHandler _ | .pingHandler _ _
  | .newUserHandler _ => true
  | _ => false

/-- A message is sent, edited or forwarded by the dispatcher. -/
def Effect.isTransport : Effect → Bool
  | .sendMessage _ _ _ | .sendTo _ _ | .editTextAndKeyboard _ _ | .editText _
  | .forward _ => true
  | _ => false

/-- The state after an update: the users with their modes, what was done, and the panic
that ended the program, if any. -/
structure Fired where
  Users : Int → Option User
  effects : List Effect
  panic : Option Panic

/-- The function `userIsAuthorized`. -/
def userIsAuthorized (cfg : Config) (id : Int) : Bool := (cfg.Users id).isSome

/-- Go `strings.LastIndex(s, " ")` on the characters of a string, `-1` without a space. -/
def lastIndexSpace (s : List Char) : Int :=
  match s.reverse.findIdx? (fun c => c == ' ') with
  | some k => (s.length : Int) - 1 - k
  | none => -1

/-- The function `splitLast`: split last arg from args. With `i = -1` the slice
`args[:i]` panics. -/
def splitLast (args : String) : Except Panic (String × String) :=
  let i := lastIndexSpace args.data
  if i < 0 then .error Panic.sliceBounds
  else .ok (⟨args.data.take i.toNat⟩, ⟨args.data.drop (i.toNat + 1)⟩)

/-- Go `strconv.Atoi` with the error dropped (`page, _ := strconv.Atoi(p)`): `0` on a
syntax error, the nearest 64-bit value on a range error. -/
def atoi (s : String) : Int :=
  let neg := s.data.head? = some '-'
  let digits := if s.data.head? = some '-' ∨ s.data.head? = some '+' then s.data.tail
    else s.data
  if digits.isEmpty || !digits.all Char.isDigit then 0
  else
    let n : Int := digits.foldl (fun n c => n * 10 + ((c.toNat : Int) - 48)) 0
    if neg then (if n > 2 ^ 63 then -(2 ^ 63) else -n)
    else (if n ≥ 2 ^ 63 then 2 ^ 63 - 1 else n)

/-- `CFG.Users[uid].Mode = mode`. -/
def setMode (users : Int → Option User) (uid : Int) (mode : String) : Int → Option User :=
  fun u => if u = uid then (users uid).map (fun x => { x with Mode := mode }) else users u

/-- The callback branch of `main` from "restore mode" on, after the handler `ran` gave
`reply`. -/
def finishCallback (cfg : Config) (uid : Int) (mode action : String) (ran : Effect)
    (reply : Reply) : Fired :=
  match reply with
  | .error p => ⟨cfg.Users, [ran], some p⟩
  | .ok (res, kb) =>
    let users := setMode cfg.Users uid mode
    let sent : List Effect :=
      if action = "send" then
        if kb.length > 0 then [Effect.sendMessage uid res kb] else [Effect.sendTo uid res]
      else if action = "edit" then
        if kb.length > 0 then [Effect.editTextAndKeyboard res kb] else [Effect.editText res]
      else []
    ⟨users, [ran] ++ sent ++ [Effect.callbackDone], none⟩

/-- The body of the loop of `main` for an update without message and with callback data
`data`, from the chat `uid`. -/
def handleCallback (h : Handlers) (cfg : Config) (uid : Int) (data : String) : Fired :=
  if !userIsAuthorized cfg uid && uid != cfg.Admin then
    ⟨cfg.Users, [], none⟩
  else if data = "" then
    ⟨cfg.Users, [], none⟩
  else
    match cfg.Users uid with
    | none => ⟨cfg.Users, [], some Panic.nilDereference⟩
    | some _ =>
      let (mode, args) := splitArgs data
      let (action, rawCmd) := splitArgs args
      if mode = "raw" then
        finishCallback cfg uid mode action (Effect.rawHandler rawCmd) (h.rawHandler rawCmd)
      else if mode = "search" then
        match splitLast rawCmd with
        | .error p => ⟨cfg.Users, [], some p⟩
        | .ok (kw, p) =>
          let page := atoi p
          finishCallback cfg uid mode action (Effect.searchHandler kw page)
            (h.searchHandler kw page)
      else
        ⟨cfg.Users, [Effect.callbackDone], none⟩

/-- Handlers that answer with a fixed text and no keyboard, for the examples. -/
def sampleHandlers : Handlers :=
  { rawHandler := fun _ => .ok ("report", [])
    searchHandler := fun _ _ => .ok ("found", []) }

/-- A configuration with the admin 1 and the user 7, who is in ping mode, for the
examples. -/
def sampleConfig : Config :=
  { Admin := 1
    Users := fun u =>
      if u = 1 then some ⟨"admin", "raw"⟩
      else if u = 7 then some ⟨"user", "ping"⟩
      else none }

/-- The run `s` continued after the requests `rq` and the pieces `rs`. -/
def Run.frame (rq : List Request) (rs : List Piece) (s : Run) : Run :=
  { s with requests := rq ++ s.requests, res := rs ++ s.res }

/-- The outcome `o` of a run continued after the requests `rq` and the pieces `rs`. -/
def Outcome.frame (rq : List Request) (rs : List Piece) (o : Outcome) : Outcome :=
  ⟨rq ++ o.requests, o.result.map (fun res => rs ++ res)⟩

/-- The requests made only for an access port: ACL, multicast, MAC table and ARP. -/
def Request.forAccessPort : Request → Bool
  | .acl | .multicast | .mac | .arpByIP _ | .arpByMac _ => true
  | _ => false

/-- The requests made only when the link is up: MAC table and ARP. -/
def Request.forLinkUp : Request → Bool
  | .mac | .arpByIP _ | .arpByMac _ => true
  | _ => false

/-- The ACL, multicast, MAC and ARP sections of a report. -/
def Piece.forAccessPort : Piece → Bool
  | .acl _ | .noMcastSource | .mcast _ | .mac _ | .arp _ => true
  | _ => false

/-- The MAC and ARP sections of a report. -/
def Piece.forLinkUp : Piece → Bool
  | .mac _ | .arp _ => true
  | _ => false

/-- A port with the given number and link state, for the examples. -/
def samplePort (n : Int) (link : Bool) : Port :=
  { Port := n, PortType := "C", State := true, Speed := "auto", Link := link,
    Status := "100M/Full", Learning := true, Autodowngrade := false,
    Description := "", Cable := [] }

/-- An API whose every request succeeds, for the examples: port 1 is an access port with
link up, one permitted ACL address and one learned MAC address. -/
def sampleAPI : API :=
  { ports := .ok [samplePort 1 true]
    bandwidth := .ok ⟨0, 0⟩
    counters := .ok ⟨10, 20, 1, 2, [], []⟩
    vlan := .ok ⟨1, [10], []⟩
    portList := .ok (some [3, 1, 2])
    acl := .ok [⟨1, 1, 1, "1.2.3.4", "255.255.255.255", "permit"⟩]
    multicast := .ok (some ([1, 2], [25]))
    mac := .ok [⟨1, 10, "aa:bb"⟩]
    arpByIP := fun _ _ => .ok [⟨"1.2.3.4", "aa:bb", 10, true⟩]
    arpByMac := fun _ _ =>
      .ok [⟨"1.2.3.4", "aa:bb", 10, true⟩, ⟨"5.6.7.8", "cc:dd", 20, false⟩] }

/-- Templates that print the name of the section, for the examples. -/
def sampleTemplates : Templates :=
  { ports := fun _ => "[ports]"
    bandwidth := fun _ => "[bandwidth]"
    counters := fun _ => "[counters]"
    vlan := fun _ => "[vlan]"
    acl := fun _ => "[acl]"
    mac := fun _ => "[mac]"
    arp := fun _ => "[arp]" }

/-- The list of first occurrences, as the specification words it: the first entry is kept
and every later entry equal to it is dropped, and so on for the remaining entries. -/
def firstOccurrences : List ARPEntry → List ARPEntry
  | [] => []
  | a :: rest => a :: (firstOccurrences rest).filter (fun u => decide (u ≠ a))

/-! ## Search mode (`searchHandler`) -/

/-- Go type `Switch`. -/
structure Switch where
  IP : String
  Location : String
  MAC : String
  Model : String
  Status : Bool
deriving DecidableEq, Repr

/-- The field `Meta.Entries` of the Go type `DBSearch`. -/
structure DBSearchEntries where
  Current : Int
  PerPage : Int
  Total : Int
deriving DecidableEq, Repr

/-- The field `Meta.Pages` of the Go type `DBSearch`. -/
structure DBSearchPages where
  Current : Int
  Total : Int
deriving DecidableEq, Repr

/-- The field `Meta` of the Go type `DBSearch`. -/
structure DBSearchMeta where
  Entries : DBSearchEntries
  Pages : DBSearchPages
deriving DecidableEq, Repr

/-- Go type `DBSearch`. -/
structure DBSearch where
  Data : List Switch
  Meta : DBSearchMeta
deriving DecidableEq, Repr

/-- The answer to `POST /db/search`: an error of `requestAPI`, a response that
`mapstructure.Decode` rejects, or the decoded result. -/
inductive SearchResponse where
  | error (e : String)
  | undecodable
  | ok (result : DBSearch)

/-- The function `genKeyboard`: generate keyboard markup from matrix. A map of the matrix
is the list of its entries; the maps of `searchHandler` have one entry each. -/
def genKeyboard (matrix : List (List (List (String × String)))) : Keyboard :=
  matrix.map (fun rows => rows.flatten)

/-- The callback data of a pagination button: `fmt.Sprintf("search edit %s %d", kw, page)`. -/
def searchCallback (kw : String) (page : Int) : String :=
  "search edit " ++ kw ++ " " ++ toString page

/-- The block "callback pagination" of `searchHandler`, for the requested page `page` and
`total = result.Meta.Pages.Total`. -/
def pagination (kw : String) (page total : Int) : Keyboard :=
  if total > 1 then
    let buttons : List (List (String × String)) := []
    let buttons :=
      if page > 1 then
        let buttons :=
          if page > 2 then buttons ++ [[("<<", searchCallback kw 1)]] else buttons
        buttons ++ [[("<", searchCallback kw (page - 1))]]
      else buttons
    let buttons :=
      if page < total then
        let buttons := buttons ++ [[(">", searchCallback kw (page + 1))]]
        if page < total - 1 then buttons ++ [[(">>", searchCallback kw total)]] else buttons
      else buttons
    genKeyboard [buttons]
  else []

/-- The function `searchHandler`: search mode handler. `search kw page` is the answer of
the API and `tpl` the template `search.tmpl`. -/
def searchHandler (search : String → Int → SearchResponse) (tpl : DBSearch → String)
    (kw : String) (page : Int) : String × Keyboard :=
  if kw = "" then ("You are in search mode", [])
  else
    match search kw page with
    | .error e => (fmtErr e, [])
    | .undecodable => ("", [])
    | .ok result => (tpl result, pagination kw page result.Meta.Pages.Total)

/-! ## IP addresses (`fullIP`) -/

/-- The regular expressions `fullIP` uses: a literal text, a character class `[lo-hi]`, an
alternation `a|b` and a sequence `ab` (`x{3}` is `xxx`). -/
inductive Regex where
  | lit (s : List Char)
  | range (lo hi : Char)
  | alt (a b : Regex)
  | cat (a b : Regex)

/-- The text `s` as a whole matches the expression: `MatchString` for `^...$`. -/
def Regex.matches : Regex → List Char → Bool
  | .lit t, s => s == t
  | .range lo hi, s =>
    match s with
    | [c] => decide (lo.toNat ≤ c.toNat) && decide (c.toNat ≤ hi.toNat)
    | _ => false
  | .alt a b, s => a.matches s || b.matches s
  | .cat a b, s =>
    (List.range (s.length + 1)).any (fun i => a.matches (s.take i) && b.matches (s.drop i))

/-- The class `[0-9]`. -/
def reDigit : Regex := .range '0' '9'

/-- The expression `octet` of `fullIP`:
`[0-9]|[1-9][0-9]|1[0-9]{2}|2[0-4][0-9]|25[0-5]`. -/
def reOctet : Regex :=
  .alt reDigit
    (.alt (.cat (.range '1' '9') reDigit)
      (.alt (.cat (.lit ['1']) (.cat reDigit reDigit))
        (.alt (.cat (.lit ['2']) (.cat (.range '0' '4') reDigit))
          (.cat (.lit ['2', '5']) (.range '0' '5')))))

/-- The expression `reFull` of `fullIP`: `^((octet)\.){3}(octet)$`. -/
def reFull : Regex :=
  .cat (.cat (.cat reOctet (.lit ['.']))
      (.cat (.cat reOctet (.lit ['.'])) (.cat reOctet (.lit ['.']))))
    reOctet

/-- The expression `reShort` of `fullIP`: `^(octet)\.(octet)$`. -/
def reShort : Regex := .cat reOctet (.cat (.lit ['.']) reOctet)

/-- The expression `reSwitch` of `fullIP`: `^192\.168\.(4[79]|5[7-9]|60)\.(octet)$`. -/
def reSwitch : Regex :=
  .cat (.lit "192.168.".data)
    (.cat (.alt (.cat (.lit ['4']) (.alt (.lit ['7']) (.lit ['9'])))
          (.alt (.cat (.lit ['5']) (.range '7' '9')) (.lit ['6', '0'])))
      (.cat (.lit ['.']) reOctet))

/-- The part `(4[79]|5[7-9]|60)` of `reSwitch`. -/
def reSwitchNet : Regex :=
  .alt (.cat (.lit ['4']) (.alt (.lit ['7']) (.lit ['9'])))
    (.alt (.cat (.lit ['5']) (.range '7' '9')) (.lit ['6', '0']))

/-- The function `fullIP`: convert x.x --> 192.168.x.x, return empty string on invalid
ip. -/
def fullIP (ip : String) (isSwitch : Bool) : String :=
  let ip := if reShort.matches ip.data then "192.168." ++ ip else ip
  if isSwitch && reSwitch.matches ip.data || !isSwitch && reFull.matches ip.data then ip
  else ""

/-- The decimal numerals of the numbers 0 to 255. -/
def octetNumerals : List (List Char) := (List.range 256).map (fun n => (toString n).data)

/-- A decimal octet: the numeral of a number from 0 to 255, without leading zeros. -/
def isOctet (s : List Char) : Bool := decide (s ∈ octetNumerals)

/-- Exactly two dot-separated decimal octets. -/
def isShortIP (ip : String) : Bool :=
  (ip.data.splitOn '.').length == 2 && (ip.data.splitOn '.').all isOctet

/-- Exactly four dot-separated decimal octets. -/
def isFullIP (ip : String) : Bool :=
  (ip.data.splitOn '.').length == 4 && (ip.data.splitOn '.').all isOctet

/-- The form 192.168.X.Y with X one of 47, 49, 57, 58, 59, 60 and Y a decimal octet. -/
def isSwitchIP (ip : String) : Bool :=
  match ip.data.splitOn '.' with
  | [a, b, x, y] =>
    a == "192".data && b == "168".data &&
      decide (x ∈ ["47".data, "49".data, "57".data, "58".data, "59".data, "60".data]) &&
      isOctet y
  | _ => false

/-- What the specification says of `fullIP`. -/
def fullIPSpec (ip : String) (isSwitch : Bool) : String :=
  let e := if isShortIP ip then "192.168." ++ ip else ip
  if isFullIP e && (!isSwitch || isSwitchIP e) then e else ""

/-- The texts that can match an expression. -/
def Regex.lang : Regex → List (List Char)
  | .lit t => [t]
  | .range lo hi =>
    (List.range' lo.toNat (hi.toNat + 1 - lo.toNat)).map (fun n => [Char.ofNat n])
  | .alt a b => a.lang ++ b.lang
  | .cat a b => a.lang.flatMap (fun x => b.lang.map (fun y => x ++ y))

/-! ## Round-trip times (`fmtRTT`) -/

/-- Go `time.Second`, in nanoseconds (a `time.Duration` is an `int64` of nanoseconds). -/
def Second : Int := 1000000000

/-- The largest `time.Duration`. -/
def maxDuration : Int := 2 ^ 63 - 1

/-- The smallest `time.Duration`. -/
def minDuration : Int := -(2 ^ 63)

/-- The `int64` that an arithmetic result wraps around to. -/
def wrap64 (x : Int) : Int := (x + 2 ^ 63) % 2 ^ 64 - 2 ^ 63

/-- The loop `for scale > d { scale = scale / 10 }` of `fmtRTT`, run for at most `fuel`
tests of its condition: `none` when the loop has not ended by then. -/
def scaleLoop : Nat → Int → Int → Option Int
  | 0, _, _ => none
  | fuel + 1, scale, d =>
    if scale > d then scaleLoop fuel (Int.tdiv scale 10) d else some scale

/-- Go `Duration.Round`: `d` rounded to the nearest multiple of `m`, halfway values away
from zero; `d` itself when `m <= 0`. -/
def durationRound (d m : Int) : Int :=
  if m ≤ 0 then d
  else
    let r := Int.tmod d m
    if d < 0 then
      let r := -r
      if r + r < m then d + r
      else
        let d1 := wrap64 (d - m + r)
        if d1 < d then d1 else minDuration
    else
      if r + r < m then d - r
      else
        let d1 := wrap64 (d + m - r)
        if d1 > d then d1 else maxDuration

/-- The duration `fmtRTT` prints: `d.Round(scale / 100)` for the scale its loop finds. -/
def fmtRTTRounded (fuel : Nat) (d : Int) : Option Int :=
  (scaleLoop fuel (100 * Second) d).map (fun scale => durationRound d (Int.tdiv scale 100))

/-- The function `fmtRTT`: print rounded duration if it is less than 100s. `str` is Go
`Duration.String`. -/
def fmtRTT (str : Int → String) (fuel : Nat) (d : Int) : Option String :=
  (fmtRTTRounded fuel d).map str

/-! ## The dispatcher (`main`), message updates -/

/-- The constant `HELPUSER`: help string for user. -/
def HELPUSER : String :=
  "\n<b>Available commands:</b>\n" ++
  "/help - print this help\n" ++
  "/raw [args] - switch to raw command mode (default)\n" ++
  "/report [args] - switch to feedback mode\n" ++
  "/search [args] - switch to search mode\n" ++
  "/ping [args] - switch to ping mode\n" ++
  "\n" ++
  "<code>args</code> - optional commands, which can be executed immediately, " ++
  "like you are already in this mode.\n" ++
  "\n" ++
  "<b>Raw mode (default)</b>\n" ++
  "In this mode bot try to parse raw commands:\n" ++
  "\n" ++
  "<code>IP</code> - depending on <b><i>IP</i></b>, get switch summary or get client " ++
  "ip address summary (ip, mask, gateway, prefix)\n" ++
  "\n" ++
  "<code>IP PORT</code> - get short switch and short port summary with additional " ++
  "callback buttons:\n" ++
  "\n" ++
  "<code>full/short</code> - switch between full and short port summary\n" ++
  "<code>refresh</code> - update information in the same message\n" ++
  "<code>clear</code> - clear port counters and refresh\n" ++
  "<code>repeat</code> - send new message with updated information\n" ++
  "\n" ++
  "<b><i>IP</i></b> can be in short or full format (e.g. <code>59.75</code> and " ++
  "<code>192.168.59.75</code> are equal)\n" ++
  "For client\x27s public ip you must specify address in full format.\n" ++
  "\n" ++
  "<b>Report mode</b>\n" ++
  "In this mode you can send bug reports or suggestions.\n" ++
  "All messages will be redirected to special reports channel. You can also send " ++
  "screenshots or other media.\n" ++
  "\n" ++
  "<b>Search mode</b>\n" ++
  "In this mode you can search switches by mac, model or location.\n" ++
  "Results will be paginated. Use callback buttons to navigate between pages: first, " ++
  "previous, next, last. \n" ++
  "\n" ++
  "<b>Ping mode</b>\n" ++
  "In this mode you can ping different hosts.\n" ++
  "Only one host at time. If you send a new host, previous pinger will be stopped.\n" ++
  "\n"

/-- What the dispatcher reads of a message: its text, and `Command()` and
`CommandArguments()` as the Telegram library computes them from the text and its entities. -/
structure Message where
  Text : String
  Command : String
  CommandArguments : String
deriving DecidableEq, Repr

/-- The handlers the message branch calls besides those of the callback branch. The admin
handler can change `CFG` (users added or removed, configuration reloaded); `forwardFails`
tells whether `Bot.Send(fwd)` returns an error. -/
structure MessageHandlers extends Handlers where
  adminHandler : Config → String → Except Panic (Config × String)
  pingHandler : String → Int → Except Panic String
  forwardFails : Bool

/-- The switch "cmd processing" of `main`: the text to send at once (`goto SEND`), or the
mode the command sets, if any. -/
def cmdProcessing (cfg : Config) (uid : Int) (cmd : String) : String ⊕ Option String :=
  if cmd = "help" then .inl HELPUSER
  else if cmd = "start" then .inl HELPUSER
  else if cmd = "admin" then
    if uid = cfg.Admin then .inr (some "admin")
    else .inl (fmtErr "You have no permissions to work in this mode.")
  else if cmd = "raw" then .inr (some "raw")
  else if cmd = "report" then .inr (some "report")
  else if cmd = "search" then .inr (some "search")
  else if cmd = "ping" then .inr (some "ping")
  else if cmd = "" then .inr none
  else .inl (fmtErr "Unknown command.")

/-- The state of the message branch at the label `SEND`: `CFG`, the handlers run and the
messages forwarded so far, and `res` and `kb`, or the panic that ended the program. -/
structure Processed where
  cfg : Config
  effects : List Effect
  reply : Reply

/-- The handler `ran` gave the text `r`, without keyboard. -/
def textReply (cfg : Config) (ran : Effect) (r : Except Panic String) : Processed :=
  ⟨cfg, [ran], r.map (fun res => (res, []))⟩

/-- The switch "msg processing" of `main`, on the mode of the user. -/
def msgProcessing (h : MessageHandlers) (cfg : Config) (uid : Int) (msg : String) :
    Processed :=
  match cfg.Users uid with
  | none => ⟨cfg, [], .error Panic.nilDereference⟩
  | some u =>
    if u.Mode = "admin" then
      match h.adminHandler cfg msg with
      | .error p => ⟨cfg, [Effect.adminHandler msg], .error p⟩
      | .ok (cfg2, res) => ⟨cfg2, [Effect.adminHandler msg], .ok (res, [])⟩
    else if u.Mode = "report" then
      if msg = "" then
        ⟨cfg, [], .ok ("You are in report mode. " ++
          "Send message with your report, you can also attach screenshots or other media.\n" ++
          "To cancel and return to raw command mode, send /raw.", [])⟩
      else
        let res := if h.forwardFails then "Your report failed. Contact admin to check logs. "
          else "Your report has been sent. "
        ⟨cfg, [Effect.forward uid],
          .ok (res ++ "Send another message or return to raw command mode by sending /raw.",
            [])⟩
    else if u.Mode = "search" then
      ⟨cfg, [Effect.searchHandler msg 1], h.searchHandler msg 1⟩
    else if u.Mode = "ping" then
      textReply cfg (Effect.pingHandler msg uid) (h.pingHandler msg uid)
    else
      ⟨cfg, [Effect.rawHandler msg], h.rawHandler msg⟩

/-- The message branch of `main` up to the label `SEND`, for an authorised user. -/
def processMessage (h : MessageHandlers) (cfg : Config) (uid : Int) (m : Message) :
    Processed :=
  let cmd := m.Command
  let msg := if cmd ≠ "" then m.CommandArguments else m.Text
  match cmdProcessing cfg uid cmd with
  | .inl res => ⟨cfg, [], .ok (res, [])⟩
  | .inr none => msgProcessing h cfg uid msg
  | .inr (some mode) => msgProcessing h { cfg with Users := setMode cfg.Users uid mode } uid msg

/-- The label `SEND` of `main`: the text is sent unless it is empty. -/
def sendReply (uid : Int) (res : String) (kb : Keyboard) : List Effect :=
  if res ≠ "" then
    if kb.length > 0 then [Effect.sendMessage uid res kb] else [Effect.sendTo uid res]
  else []

/-- What an update left: `CFG`, what was done, and the panic that ended the program, if
any. -/
structure Step where
  cfg : Config
  effects : List Effect
  panic : Option Panic

/-- The body of the loop of `main` for an update with the message `m`, from the chat
`uid`. -/
def handleMessage (h : MessageHandlers) (cfg : Config) (uid : Int) (m : Message) : Step :=
  if !userIsAuthorized cfg uid && uid != cfg.Admin then
    if m.Command = "start" then ⟨cfg, [Effect.newUserHandler uid], none⟩
    else ⟨cfg, [], none⟩
  else
    match cfg.Users uid with
    | none => ⟨cfg, [], some Panic.nilDereference⟩
    | some _ =>
      let r := processMessage h cfg uid m
      match r.reply with
      | .error p => ⟨r.cfg, r.effects, some p⟩
      | .ok (res, kb) => ⟨r.cfg, r.effects ++ sendReply uid res kb, none⟩

/-- An update from a chat: a message, or a callback query with its data. -/
inductive Update where
  | message (m : Message)
  | callback (data : String)
deriving DecidableEq, Repr

/-- The body of the loop of `main` for one update from the chat `uid`. -/
def handleUpdate (h : MessageHandlers) (cfg : Config) (uid : Int) : Update → Step
  | .message m => handleMessage h cfg uid m
  | .callback data =>
    let f := handleCallback h.toHandlers cfg uid data
    ⟨{ cfg with Users := f.Users }, f.effects, f.panic⟩

/-- The loop of `main` over the updates `us` of the chat `uid`, each with what the
handlers answer at that time; the loop ends at the first panic. -/
def runUpdates (uid : Int) : Step → List (MessageHandlers × Update) → Step
  | s, [] => s
  | s, (h, u) :: rest =>
    match s.panic with
    | some _ => s
    | none =>
      let t := handleUpdate h s.cfg uid u
      runUpdates uid ⟨t.cfg, s.effects ++ t.effects, t.panic⟩ rest

/-- The mode of the session of `uid`, if the user is registered. -/
def modeOf (cfg : Config) (uid : Int) : Option String := (cfg.Users uid).map (fun u => u.Mode)

/-- The admin handler is run. -/
def Effect.isAdminHandler : Effect → Bool
  | .adminHandler _ => true
  | _ => false

/-- Handlers for the examples: the search API answers with a response that cannot be
decoded, so `searchHandler` returns an empty text; the admin handler lists nothing. -/
def silentHandlers : MessageHandlers :=
  { rawHandler := fun _ => .ok ("report", [])
    searchHandler := fun kw page =>
      .ok (searchHandler (fun _ _ => SearchResponse.undecodable) (fun _ => "found") kw page)
    adminHandler := fun cfg _ => .ok (cfg, "")
    pingHandler := fun _ _ => .ok ""
    forwardFails := false }

/-- The user 7 of the example configuration, in the given mode. -/
def sampleConfigIn (mode : String) : Config :=
  { sampleConfig with Users := setMode sampleConfig.Users 7 mode }

example : decodeCallback "raw edit 192.168.59.75 1 full clear" =
    ("raw", "edit", "192.168.59.75 1 full clear") := by decide
example : decodeCallback "raw send  x" = ("raw", "send", "x") := by decide
example : decodeCallback "raw send " = ("raw", "send", "") := by decide
example : decodeCallback "raw" = ("raw", "", "") := by decide

/-! ## Theorems -/

theorem rdropWhile_append_eq {α : Type} [DecidableEq α] (p : α → Bool) (a b : List α) :
    (a ++ b).rdropWhile p =
      if b.rdropWhile p = [] then a.rdropWhile p else a ++ b.rdropWhile p := by
  induction b using List.reverseRecOn with
  | nil => simp
  | append_singleton b y ih =>
    rw [← List.append_assoc, List.rdropWhile_concat, List.rdropWhile_concat]
    by_cases hy : p y = true
    · simp only [hy, if_true, ih]
    · simp [hy]

theorem rdropWhile_cons_eq {α : Type} [DecidableEq α] (p : α → Bool) (x : α) (xs : List α) :
    (x :: xs).rdropWhile p =
      if xs.rdropWhile p = [] then (if p x then [] else [x]) else x :: xs.rdropWhile p := by
  have h := rdropWhile_append_eq p [x] xs
  simpa [List.rdropWhile_singleton] using h

theorem dropWhile_rdropWhile_comm {α : Type} [DecidableEq α] (p : α → Bool) (c : List α) :
    (c.rdropWhile p).dropWhile p = (c.dropWhile p).rdropWhile p := by
  induction c with
  | nil => simp
  | cons x xs ih =>
    by_cases hx : p x = true
    · rw [List.dropWhile_cons_of_pos hx, rdropWhile_cons_eq]
      by_cases hn : xs.rdropWhile p = []
      · have hall : ∀ y ∈ xs, p y = true := List.rdropWhile_eq_nil_iff.1 hn
        have hd : xs.dropWhile p = [] := List.dropWhile_eq_nil_iff.2 hall
        simp [hn, hx, hd]
      · simp [hn, hx, ih]
    · rw [List.dropWhile_cons_of_neg hx, rdropWhile_cons_eq]
      by_cases hn : xs.rdropWhile p = []
      · simp [hn, hx]
      · simp [hn, hx]

theorem trimSpaceL_rdropWhile (c : List Char) :
    trimSpaceL (c.rdropWhile isSpace) = trimSpaceL c := by
  unfold trimSpaceL
  rw [dropWhile_rdropWhile_comm, List.rdropWhile_idempotent]

theorem splitN2L_no_space (m : List Char) (hm : ∀ x ∈ m, x ≠ ' ') : splitN2L m = [m] := by
  have h : m.dropWhile (fun c => c != ' ') = [] :=
    List.dropWhile_eq_nil_iff.2 (fun x hx => by simpa using hm x hx)
  simp [splitN2L, h]

theorem splitN2L_append_space (m rest : List Char) (hm : ∀ x ∈ m, x ≠ ' ') :
    splitN2L (m ++ ' ' :: rest) = [m, rest] := by
  have hp : ∀ x ∈ m, (fun c : Char => c != ' ') x = true := fun x hx => by simpa using hm x hx
  simp [splitN2L, List.dropWhile_append_of_pos hp, List.takeWhile_append_of_pos hp]

theorem splitArgs_mk_no_space (m : List Char) (hm : ∀ x ∈ m, x ≠ ' ') :
    splitArgs ⟨m⟩ = (⟨m⟩, "") := by
  simp [splitArgs, splitN2, splitN2L_no_space m hm]

theorem splitArgs_mk_space (m rest : List Char) (hm : ∀ x ∈ m, x ≠ ' ') :
    splitArgs ⟨m ++ ' ' :: rest⟩ = (⟨m⟩, ⟨trimSpaceL rest⟩) := by
  simp [splitArgs, splitN2, splitN2L_append_space m rest hm, trimSpace]

theorem trimSpaceL_word_space (a c : List Char) (ha : ∀ x ∈ a, isSpace x = false)
    (hne : a ≠ []) :
    trimSpaceL (a ++ ' ' :: c) =
      if c.rdropWhile isSpace = [] then a else a ++ ' ' :: c.rdropWhile isSpace := by
  obtain ⟨x, a', rfl⟩ := List.exists_cons_of_ne_nil hne
  have hx : ¬ isSpace x = true := by simp [ha x (by simp)]
  have hself : (x :: a').rdropWhile isSpace = x :: a' := by
    rw [List.rdropWhile_eq_self_iff]
    intro hl
    simp [ha _ (List.getLast_mem hl)]
  have hsp : isSpace ' ' = true := by decide
  unfold trimSpaceL
  rw [List.cons_append, List.dropWhile_cons_of_neg hx, ← List.cons_append,
    rdropWhile_append_eq, rdropWhile_cons_eq, hself]
  by_cases hn : c.rdropWhile isSpace = []
  · simp [hn, hsp]
  · simp [hn]

theorem decodeCallback_mk (m a c : List Char) (hm : ∀ x ∈ m, x ≠ ' ')
    (ha : ∀ x ∈ a, isSpace x = false) (hne : a ≠ []) :
    decodeCallback ⟨m ++ ' ' :: (a ++ ' ' :: c)⟩ = (⟨m⟩, ⟨a⟩, ⟨trimSpaceL c⟩) := by
  have ha' : ∀ x ∈ a, x ≠ ' ' := by
    intro x hx h
    have := ha x hx
    rw [h] at this
    exact absurd this (by decide)
  unfold decodeCallback
  rw [splitArgs_mk_space m _ hm]
  simp only [trimSpaceL_word_space a c ha hne]
  by_cases hn : c.rdropWhile isSpace = []
  · have hall : ∀ y ∈ c, isSpace y = true := List.rdropWhile_eq_nil_iff.1 hn
    have hd : c.dropWhile isSpace = [] := List.dropWhile_eq_nil_iff.2 hall
    simp only [hn, if_true, splitArgs_mk_no_space a ha']
    simp [trimSpaceL, hd]
  · simp only [hn, if_false, splitArgs_mk_space a _ ha', trimSpaceL_rdropWhile]

/-- C1 (as the code behaves): for every mode in {raw, search}, action in {send, edit} and
command, decoding `mode + " " + action + " " + command` with two `splitArgs` calls returns
the mode, the action and the command with its leading and trailing white space removed;
so it returns exactly (mode, action, command) if and only if the command has no leading
or trailing white space. -/
theorem callback_roundtrip_trimmed (mode action command : String)
    (hm : mode = "raw" ∨ mode = "search") (ha : action = "send" ∨ action = "edit") :
    decodeCallback (mode ++ " " ++ action ++ " " ++ command)
        = (mode, action, trimSpace command) ∧
      (decodeCallback (mode ++ " " ++ action ++ " " ++ command) = (mode, action, command)
        ↔ trimSpace command = command) := by
  have key : decodeCallback (mode ++ " " ++ action ++ " " ++ command)
      = (mode, action, trimSpace command) := by
    have e : mode ++ " " ++ action ++ " " ++ command
        = ⟨mode.data ++ ' ' :: (action.data ++ ' ' :: command.data)⟩ := by
      apply String.ext
      simp [String.data_append]
    rw [e]
    have hm' : ∀ x ∈ mode.data, x ≠ ' ' := by
      rcases hm with h | h <;> subst h <;> decide
    have ha' : ∀ x ∈ action.data, isSpace x = false := by
      rcases ha with h | h <;> subst h <;> decide
    have hne : action.data ≠ [] := by
      rcases ha with h | h <;> subst h <;> decide
    rw [decodeCallback_mk _ _ _ hm' ha' hne]
    rfl
  refine ⟨key, ?_⟩
  rw [key]
  constructor
  · intro h
    simpa using h
  · intro h
    rw [h]

/-- C1 witness: the round trip of a port command with embedded spaces. -/
theorem callback_roundtrip_trimmed_witness :
    decodeCallback ("raw" ++ " " ++ "edit" ++ " " ++ "192.168.59.75 1 full clear")
        = ("raw", "edit", trimSpace "192.168.59.75 1 full clear") ∧
      (decodeCallback ("raw" ++ " " ++ "edit" ++ " " ++ "192.168.59.75 1 full clear")
          = ("raw", "edit", "192.168.59.75 1 full clear")
        ↔ trimSpace "192.168.59.75 1 full clear" = "192.168.59.75 1 full clear") :=
  callback_roundtrip_trimmed "raw" "edit" "192.168.59.75 1 full clear"
    (Or.inl rfl) (Or.inr rfl)

/-- C1 counterexample: a command with a leading space is not recovered; the decoder
returns it without the space. -/
theorem callback_roundtrip_leading_space_lost :
    ¬ (decodeCallback ("raw" ++ " " ++ "send" ++ " " ++ " x") = ("raw", "send", " x")) := by
  decide

/-! ### The ARP deduplication loop -/

theorem dedupARP_foldl (acc l : List ARPEntry) :
    l.foldl
      (fun arpTable a => if arpTable.any (fun u => u == a) then arpTable else arpTable ++ [a])
      acc
    = acc ++ (firstOccurrences l).filter (fun u => decide (u ∉ acc)) := by
  induction l generalizing acc with
  | nil => simp [firstOccurrences]
  | cons x xs ih =>
    rw [List.foldl_cons]
    by_cases hx : x ∈ acc
    · have hany : acc.any (fun u => u == x) = true := by
        simp only [List.any_eq_true, beq_iff_eq]
        exact ⟨x, hx, rfl⟩
      rw [if_pos hany, ih]
      simp only [firstOccurrences, List.filter_cons, hx, not_true_eq_false, decide_False,
        Bool.false_eq_true, if_false, List.filter_filter]
      congr 1
      apply List.filter_congr
      intro u _
      by_cases hu : u ∈ acc
      · simp [hu]
      · have : u ≠ x := fun h => hu (h ▸ hx)
        simp [hu, this]
    · have hany : ¬ acc.any (fun u => u == x) = true := by
        simp only [List.any_eq_true, beq_iff_eq, not_exists, not_and]
        intro u hu h
        exact hx (h ▸ hu)
      rw [if_neg hany, ih]
      simp only [firstOccurrences, List.filter_cons, hx, not_false_eq_true, decide_True,
        if_true, List.filter_filter, List.append_assoc, List.singleton_append]
      congr 2
      apply List.filter_congr
      intro u _
      by_cases hu : u ∈ acc <;> by_cases hux : u = x <;> simp [hu, hux]

theorem dedupARP_eq_firstOccurrences (l : List ARPEntry) :
    dedupARP l = firstOccurrences l := by
  unfold dedupARP
  rw [dedupARP_foldl]
  simp

theorem mem_firstOccurrences (l : List ARPEntry) (e : ARPEntry) :
    e ∈ firstOccurrences l ↔ e ∈ l := by
  induction l with
  | nil => simp [firstOccurrences]
  | cons x xs ih =>
    simp only [firstOccurrences, List.mem_cons, List.mem_filter, ih, decide_eq_true_eq]
    by_cases h : e = x <;> simp [h]

theorem nodup_firstOccurrences (l : List ARPEntry) : (firstOccurrences l).Nodup := by
  induction l with
  | nil => simp [firstOccurrences]
  | cons x xs ih =>
    simp only [firstOccurrences, List.nodup_cons, List.mem_filter, decide_eq_true_eq]
    exact ⟨fun h => h.2 rfl, ih.filter _⟩

theorem sublist_firstOccurrences (l : List ARPEntry) : (firstOccurrences l).Sublist l := by
  induction l with
  | nil => simp [firstOccurrences]
  | cons x xs ih =>
    simp only [firstOccurrences]
    exact List.Sublist.cons₂ x ((List.filter_sublist _).trans ih)

theorem indexOf_filter_lt (p : ARPEntry → Bool) (r : List ARPEntry) (a b : ARPEntry)
    (ha : a ∈ r) (hb : b ∈ r) (hpa : p a = true) (hpb : p b = true) :
    (r.filter p).indexOf a < (r.filter p).indexOf b ↔ r.indexOf a < r.indexOf b := by
  induction r with
  | nil => simp at ha
  | cons x t ih =>
    by_cases hax : x = a
    · subst hax
      by_cases hbx : x = b
      · subst hbx
        simp [List.filter_cons, hpa]
      · simp [List.filter_cons, hpa, List.indexOf_cons_ne _ hbx]
    · have ha' : a ∈ t := by
        rcases List.mem_cons.1 ha with h | h
        · exact absurd h.symm hax
        · exact h
      by_cases hbx : x = b
      · subst hbx
        simp [List.filter_cons, hpb, List.indexOf_cons_ne _ hax]
      · have hb' : b ∈ t := by
          rcases List.mem_cons.1 hb with h | h
          · exact absurd h.symm hbx
          · exact h
        rw [List.indexOf_cons_ne _ hax, List.indexOf_cons_ne _ hbx]
        by_cases hpx : p x = true
        · rw [List.filter_cons_of_pos hpx, List.indexOf_cons_ne _ hax,
            List.indexOf_cons_ne _ hbx]
          simpa using ih ha' hb'
        · rw [List.filter_cons_of_neg hpx]
          simpa using ih ha' hb'

theorem indexOf_firstOccurrences_lt (l : List ARPEntry) (a b : ARPEntry)
    (ha : a ∈ l) (hb : b ∈ l) :
    (firstOccurrences l).indexOf a < (firstOccurrences l).indexOf b
      ↔ l.indexOf a < l.indexOf b := by
  induction l with
  | nil => simp at ha
  | cons x t ih =>
    simp only [firstOccurrences]
    by_cases hax : x = a
    · subst hax
      by_cases hbx : x = b
      · subst hbx
        simp
      · simp [List.indexOf_cons_ne _ hbx]
    · have ha' : a ∈ t := by
        rcases List.mem_cons.1 ha with h | h
        · exact absurd h.symm hax
        · exact h
      by_cases hbx : x = b
      · subst hbx
        simp [List.indexOf_cons_ne _ hax]
      · have hb' : b ∈ t := by
          rcases List.mem_cons.1 hb with h | h
          · exact absurd h.symm hbx
          · exact h
        rw [List.indexOf_cons_ne _ hax, List.indexOf_cons_ne _ hbx,
          List.indexOf_cons_ne _ hax, List.indexOf_cons_ne _ hbx]
        have hf := indexOf_filter_lt (fun u => decide (u ≠ x)) (firstOccurrences t) a b
          ((mem_firstOccurrences t a).2 ha') ((mem_firstOccurrences t b).2 hb')
          (by simpa using fun h => hax h.symm) (by simpa using fun h => hbx h.symm)
        have := ih ha' hb'
        simp only [Nat.succ_lt_succ_iff]
        exact hf.trans this

/-- C2: the deduplication loop of `portSummary` returns the list of first occurrences of
its input: no two entries of the result are equal, the result has exactly the entries that
occur in the input, and one entry comes before another in the result exactly when its
first appearance in the input comes before that of the other; and the ARP results `[e1]`
and `[e1, e2]` with `e1 ≠ e2`, as in the example of the specification, give exactly two
entries. -/
theorem dedupARP_first_occurrences (l : List ARPEntry) :
    dedupARP l = firstOccurrences l ∧
      (dedupARP l).Nodup ∧
      (∀ e, e ∈ dedupARP l ↔ e ∈ l) ∧
      (dedupARP l).Sublist l ∧
      (∀ a b, a ∈ l → b ∈ l →
        ((dedupARP l).indexOf a < (dedupARP l).indexOf b ↔ l.indexOf a < l.indexOf b)) ∧
      (∀ e1 e2 : ARPEntry, e1 ≠ e2 →
        dedupARP ([e1] ++ [e1, e2]) = [e1, e2] ∧ (dedupARP ([e1] ++ [e1, e2])).length = 2) ∧
      dedupARP ([⟨"1.2.3.4", "aa:bb", 10, true⟩] ++
          [⟨"1.2.3.4", "aa:bb", 10, true⟩, ⟨"5.6.7.8", "cc:dd", 20, false⟩])
        = [⟨"1.2.3.4", "aa:bb", 10, true⟩, ⟨"5.6.7.8", "cc:dd", 20, false⟩] := by
  refine ⟨dedupARP_eq_firstOccurrences l, ?_, ?_, ?_, ?_, ?_, ?_⟩
  · rw [dedupARP_eq_firstOccurrences]; exact nodup_firstOccurrences l
  · intro e; rw [dedupARP_eq_firstOccurrences]; exact mem_firstOccurrences l e
  · rw [dedupARP_eq_firstOccurrences]; exact sublist_firstOccurrences l
  · intro a b ha hb
    rw [dedupARP_eq_firstOccurrences]
    exact indexOf_firstOccurrences_lt l a b ha hb
  · intro e1 e2 h
    have h' : ¬ e2 = e1 := fun h2 => h h2.symm
    simp [dedupARP_eq_firstOccurrences, firstOccurrences, h']
  · decide

/-! ### Membership test -/

theorem searchInts_sorted (L : List Int) (hs : L.Sorted (fun a b => a ≤ b)) (val : Int) :
    (!(searchInts L val == L.length || some val != L[searchInts L val]?)) = true
      ↔ val ∈ L := by
  constructor
  · intro h
    simp only [Bool.not_eq_true', Bool.or_eq_false_iff, beq_eq_false_iff_ne, ne_eq,
      bne_eq_false_iff_eq] at h
    exact List.getElem?_mem h.2.symm
  · intro hmem
    have hex : ∃ x ∈ L, (fun y => decide (val ≤ y)) x = true := ⟨val, hmem, by simp⟩
    have hlt : searchInts L val < L.length := List.findIdx_lt_length_of_exists hex
    have hge : val ≤ L[searchInts L val] := by
      have := @List.findIdx_getElem _ (fun y => decide (val ≤ y)) L hlt
      simpa using this
    obtain ⟨j, hj, hjv⟩ := List.getElem_of_mem hmem
    have hij : searchInts L val ≤ j := by
      by_contra hcon
      have hlt2 : j < L.findIdx (fun y => decide (val ≤ y)) := Nat.lt_of_not_le hcon
      have := List.not_of_lt_findIdx hlt2
      simp [hjv] at this
    have hle : L[searchInts L val] ≤ val := by
      rcases Nat.eq_or_lt_of_le hij with heq | hlt3
      · simp [heq, hjv]
      · have := (List.pairwise_iff_getElem.1 hs) _ _ hlt hj hlt3
        rw [hjv] at this
        exact this
    have heq : L[searchInts L val] = val := le_antisymm hle hge
    have hget : L[searchInts L val]? = some val := by
      rw [List.getElem?_eq_getElem hlt, heq]
    simp [hget, Nat.ne_of_lt hlt]

theorem intInList_iff (val : Int) (lst : List Int) : intInList val lst = true ↔ val ∈ lst := by
  have hperm : List.Perm (sortInts lst) lst := List.perm_insertionSort _ lst
  have hsorted : (sortInts lst).Sorted (fun a b => a ≤ b) := List.sorted_insertionSort _ lst
  rw [← hperm.mem_iff, ← searchInts_sorted _ hsorted]
  rfl

theorem intInList_eq_false (val : Int) (lst : List Int) (h : val ∉ lst) :
    intInList val lst = false := by
  cases hb : intInList val lst with
  | false => rfl
  | true => exact absurd ((intInList_iff val lst).1 hb) h

/-! ### Gates of the full report -/

theorem portSummary_full_not_access (api : API) (now : String) (p0 : Port)
    (rest : List Port) (aps : List Int)
    (hports : api.ports = .ok (p0 :: rest))
    (hacc : api.portList = .ok (some aps) ∨ ((∃ e, api.portList = .error e) ∧ aps = []))
    (hnot : p0.Port ∉ aps) :
    portSummary api "full" now =
      ⟨[Request.ports, .bandwidth, .counters, .vlan, .portList],
        .ok (Piece.ports (p0 :: rest) ::
          ((match api.bandwidth with
              | .ok b => [Piece.bandwidth b]
              | .error _ => []) ++
            (match api.counters with
              | .ok c => [Piece.counters c]
              | .error _ => []) ++
            (match api.vlan with
              | .ok v => [Piece.vlan v]
              | .error _ => []) ++
            [Piece.updated now]))⟩ := by
  have hin : intInList p0.Port aps = false := intInList_eq_false _ _ hnot
  have hin0 : intInList p0.Port [] = false := intInList_eq_false _ _ (by simp)
  rcases hacc with h | ⟨⟨e, h⟩, rfl⟩ <;>
    cases hb : api.bandwidth <;> cases hc : api.counters <;> cases hv : api.vlan <;>
    simp [portSummary, hports, fullReport, h, hin, hin0, hb, hc, hv, Except.map,
      Run.request, Run.add, Run.done]

theorem not_access_pieces (now : String) (ports : List Port) (fb : Fetch PortBandwidth)
    (fc : Fetch PortCounters) (fv : Fetch PortVlan) :
    ∀ p ∈ Piece.ports ports ::
          ((match fb with
              | .ok b => [Piece.bandwidth b]
              | .error _ => []) ++
            (match fc with
              | .ok c => [Piece.counters c]
              | .error _ => []) ++
            (match fv with
              | .ok v => [Piece.vlan v]
              | .error _ => []) ++
            [Piece.updated now]), p.forAccessPort = false ∧ p.forLinkUp = false := by
  cases fb <;> cases fc <;> cases fv <;> simp [Piece.forAccessPort, Piece.forLinkUp]

/-- C3: in a full-style report on a port (first entry `p0` of the port list) whose number
is not in the fetched access-port set `aps` (the empty set when that fetch fails), whatever
the link state, `portSummary` sends exactly the port, bandwidth, counters, VLAN and
port-list requests, so no ACL, multicast, MAC-table or ARP request, and the report it
returns has no ACL, multicast, MAC or ARP section. -/
theorem not_access_port_skips_sections (api : API) (now : String) (p0 : Port)
    (rest : List Port) (aps : List Int)
    (hports : api.ports = .ok (p0 :: rest))
    (hacc : api.portList = .ok (some aps) ∨ ((∃ e, api.portList = .error e) ∧ aps = []))
    (hnot : p0.Port ∉ aps) :
    (portSummary api "full" now).requests
        = [Request.ports, .bandwidth, .counters, .vlan, .portList] ∧
      (∀ r ∈ (portSummary api "full" now).requests, r.forAccessPort = false) ∧
      ∃ pieces, (portSummary api "full" now).result = .ok pieces ∧
        ∀ p ∈ pieces, p.forAccessPort = false := by
  rw [portSummary_full_not_access api now p0 rest aps hports hacc hnot]
  exact ⟨rfl, by simp [Request.forAccessPort], _, rfl,
    fun p hp => (not_access_pieces now _ _ _ _ p hp).1⟩

/-- C3 witness: port 7 of the example switch is not among the access ports 3, 1, 2. -/
theorem not_access_port_skips_sections_witness :
    (portSummary { sampleAPI with ports := .ok [samplePort 7 true] } "full" "T").requests
        = [Request.ports, .bandwidth, .counters, .vlan, .portList] ∧
      (∀ r ∈ (portSummary { sampleAPI with ports := .ok [samplePort 7 true] } "full"
          "T").requests, r.forAccessPort = false) ∧
      ∃ pieces,
        (portSummary { sampleAPI with ports := .ok [samplePort 7 true] } "full" "T").result
          = .ok pieces ∧
        ∀ p ∈ pieces, p.forAccessPort = false :=
  not_access_port_skips_sections { sampleAPI with ports := .ok [samplePort 7 true] } "T"
    (samplePort 7 true) [] [3, 1, 2] rfl (Or.inl rfl) (by decide)

theorem any_link_false (ports : List Port) (h : ∀ p ∈ ports, p.Link = false) :
    ports.any (fun p => p.Link) = false := by
  rw [List.any_eq_false]
  intro p hp
  simp [h p hp]

theorem portSummary_full_link_down (api : API) (now : String) (p0 : Port) (rest : List Port)
    (aps : List Int)
    (hports : api.ports = .ok (p0 :: rest))
    (hlink : (p0 :: rest).any (fun p => p.Link) = false)
    (hpl : api.portList = .ok (some aps))
    (hin : intInList p0.Port aps = true)
    (hmc : api.multicast ≠ .ok none) :
    portSummary api "full" now =
      ⟨[Request.ports, .bandwidth, .counters, .vlan, .portList, .acl, .multicast],
        .ok (Piece.ports (p0 :: rest) ::
          ((match api.bandwidth with
              | .ok b => [Piece.bandwidth b]
              | .error _ => []) ++
            (match api.counters with
              | .ok c => [Piece.counters c]
              | .error _ => []) ++
            (match api.vlan with
              | .ok v => [Piece.vlan v]
              | .error _ => []) ++
            (match api.acl with
              | .ok a => [Piece.acl a]
              | .error _ => []) ++
            (match api.multicast with
              | .ok (some (m, src)) =>
                (if src.length = 0 then [Piece.noMcastSource] else []) ++
                  [Piece.mcast (intInList p0.Port m)]
              | _ => []) ++
            [Piece.updated now]))⟩ := by
  cases hb : api.bandwidth <;> cases hc : api.counters <;> cases hv : api.vlan <;>
    cases ha : api.acl <;> cases hm : api.multicast with
    | error e =>
      simp [portSummary, hports, fullReport, aclAndMulticast, hpl, hin, hb, hc, hv, ha, hm,
        hlink, Except.map, Run.request, Run.add, Run.done]
    | ok o =>
      cases o with
      | none => exact absurd hm hmc
      | some pr =>
        obtain ⟨m, src⟩ := pr
        by_cases hsrc : src.length = 0 <;>
          simp [portSummary, hports, fullReport, aclAndMulticast, hpl, hin, hb, hc, hv, ha,
            hm, hlink, hsrc, Except.map, Run.request, Run.add, Run.done]

theorem link_down_pieces (now : String) (ports : List Port) (port0 : Int)
    (fb : Fetch PortBandwidth) (fc : Fetch PortCounters) (fv : Fetch PortVlan)
    (fa : Fetch (List PortACL)) (fm : Fetch (Option (List Int × List Int))) :
    ∀ p ∈ Piece.ports ports ::
          ((match fb with
              | .ok b => [Piece.bandwidth b]
              | .error _ => []) ++
            (match fc with
              | .ok c => [Piece.counters c]
              | .error _ => []) ++
            (match fv with
              | .ok v => [Piece.vlan v]
              | .error _ => []) ++
            (match fa with
              | .ok a => [Piece.acl a]
              | .error _ => []) ++
            (match fm with
              | .ok (some (m, src)) =>
                (if src.length = 0 then [Piece.noMcastSource] else []) ++
                  [Piece.mcast (intInList port0 m)]
              | _ => []) ++
            [Piece.updated now]), p.forLinkUp = false := by
  cases fb <;> cases fc <;> cases fv <;> cases fa <;> cases fm with
  | error e => simp [Piece.forLinkUp]
  | ok o =>
    cases o with
    | none => simp [Piece.forLinkUp]
    | some pr =>
      obtain ⟨m, src⟩ := pr
      by_cases hsrc : src.length = 0 <;> simp [Piece.forLinkUp, hsrc]

/-- C4: in a full-style report in which no entry of the port list has link up,
`portSummary` sends no MAC-table and no ARP request and the report has no MAC or ARP
section, while the VLAN section is present when its fetch succeeded and, for an access
port (where the ACL and multicast requests are sent), the ACL and multicast sections are
present when their fetch succeeded. -/
theorem link_down_skips_mac_arp (api : API) (now : String) (p0 : Port) (rest : List Port)
    (aps : List Int)
    (hports : api.ports = .ok (p0 :: rest))
    (hdown : ∀ p ∈ p0 :: rest, p.Link = false)
    (hacc : api.portList = .ok (some aps) ∨ ((∃ e, api.portList = .error e) ∧ aps = []))
    (hmc : p0.Port ∈ aps → api.multicast ≠ .ok none) :
    (∀ r ∈ (portSummary api "full" now).requests, r.forLinkUp = false) ∧
      ∃ pieces, (portSummary api "full" now).result = .ok pieces ∧
        (∀ p ∈ pieces, p.forLinkUp = false) ∧
        (∀ v, api.vlan = .ok v → Piece.vlan v ∈ pieces) ∧
        (p0.Port ∈ aps →
          Request.acl ∈ (portSummary api "full" now).requests ∧
          Request.multicast ∈ (portSummary api "full" now).requests ∧
          (∀ a, api.acl = .ok a → Piece.acl a ∈ pieces) ∧
          (∀ m src, api.multicast = .ok (some (m, src)) →
            Piece.mcast (intInList p0.Port m) ∈ pieces)) := by
  have hlink : (p0 :: rest).any (fun p => p.Link) = false := any_link_false _ hdown
  by_cases hmem : p0.Port ∈ aps
  · have hin : intInList p0.Port aps = true := (intInList_iff _ _).2 hmem
    have hpl : api.portList = .ok (some aps) := by
      rcases hacc with h | ⟨_, rfl⟩
      · exact h
      · simp at hmem
    rw [portSummary_full_link_down api now p0 rest aps hports hlink hpl hin (hmc hmem)]
    refine ⟨by simp [Request.forLinkUp], _, rfl,
      link_down_pieces now _ p0.Port _ _ _ _ _, ?_, ?_⟩
    · intro v hv
      simp [hv]
    · intro _
      refine ⟨by simp, by simp, ?_, ?_⟩
      · intro a ha
        simp [ha]
      · intro m src hm
        simp [hm]
  · rw [portSummary_full_not_access api now p0 rest aps hports hacc hmem]
    refine ⟨by simp [Request.forLinkUp], _, rfl,
      fun p hp => (not_access_pieces now _ _ _ _ p hp).2, ?_, fun h => absurd h hmem⟩
    intro v hv
    simp [hv]

/-- C4 witness: the example switch with link down on port 1, an access port. -/
theorem link_down_skips_mac_arp_witness :
    (∀ r ∈ (portSummary { sampleAPI with ports := .ok [samplePort 1 false] } "full"
        "T").requests, r.forLinkUp = false) ∧
      ∃ pieces,
        (portSummary { sampleAPI with ports := .ok [samplePort 1 false] } "full" "T").result
          = .ok pieces ∧
        (∀ p ∈ pieces, p.forLinkUp = false) ∧
        (∀ v, sampleAPI.vlan = .ok v → Piece.vlan v ∈ pieces) ∧
        ((samplePort 1 false).Port ∈ [3, 1, 2] →
          Request.acl ∈ (portSummary { sampleAPI with ports := .ok [samplePort 1 false] }
            "full" "T").requests ∧
          Request.multicast ∈ (portSummary { sampleAPI with ports := .ok [samplePort 1 false] }
            "full" "T").requests ∧
          (∀ a, sampleAPI.acl = .ok a → Piece.acl a ∈ pieces) ∧
          (∀ m src, sampleAPI.multicast = .ok (some (m, src)) →
            Piece.mcast (intInList (samplePort 1 false).Port m) ∈ pieces)) :=
  link_down_skips_mac_arp { sampleAPI with ports := .ok [samplePort 1 false] } "T"
    (samplePort 1 false) [] [3, 1, 2] rfl (by decide) (Or.inl rfl)
    (fun _ h => Except.noConfusion h (fun h2 => Option.noConfusion h2))

/-! ### The stages only append to the requests and to the text -/

theorem frame_request (rq : List Request) (rs : List Piece) (s : Run) (r : Request) :
    (s.frame rq rs).request r = (s.request r).frame rq rs := by
  simp [Run.frame, Run.request]

theorem frame_add (rq : List Request) (rs : List Piece) (s : Run) (p : Piece) :
    (s.frame rq rs).add p = (s.add p).frame rq rs := by
  simp [Run.frame, Run.add]

theorem frame_done (rq : List Request) (rs : List Piece) (s : Run) :
    (s.frame rq rs).done = s.done.frame rq rs := by
  simp [Run.frame, Run.done, Outcome.frame, Except.map]

theorem frame_panic (rq : List Request) (rs : List Piece) (s : Run) (p : Panic) :
    (s.frame rq rs).panic p = (s.panic p).frame rq rs := by
  simp [Run.frame, Run.panic, Outcome.frame, Except.map]

theorem arpByACLStep_frame (api : API) (rq : List Request) (rs : List Piece) (s : Run)
    (a : PortACL) :
    arpByACLStep api (s.frame rq rs) a = (arpByACLStep api s a).frame rq rs := by
  unfold arpByACLStep
  by_cases h : a.Mode = "permit"
  · simp only [h, if_true]
    have hc : (s.frame rq rs).arpCalls = s.arpCalls := rfl
    rw [hc]
    cases api.arpByIP s.arpCalls a.IP <;> simp [Run.frame, Run.request, Run.add]
  · simp [h]

theorem arpByMacStep_frame (api : API) (rq : List Request) (rs : List Piece) (s : Run)
    (m : PortMac) :
    arpByMacStep api (s.frame rq rs) m = (arpByMacStep api s m).frame rq rs := by
  unfold arpByMacStep
  have hc : (s.frame rq rs).arpCalls = s.arpCalls := rfl
  simp only [hc]
  cases api.arpByMac s.arpCalls m.Mac <;> simp [Run.frame, Run.request, Run.add]

theorem foldl_arpByACLStep_frame (api : API) (rq : List Request) (rs : List Piece)
    (l : List PortACL) (s : Run) :
    l.foldl (arpByACLStep api) (s.frame rq rs) = (l.foldl (arpByACLStep api) s).frame rq rs := by
  induction l generalizing s with
  | nil => rfl
  | cons a l ih => simp only [List.foldl_cons, arpByACLStep_frame, ih]

theorem foldl_arpByMacStep_frame (api : API) (rq : List Request) (rs : List Piece)
    (l : List PortMac) (s : Run) :
    l.foldl (arpByMacStep api) (s.frame rq rs) = (l.foldl (arpByMacStep api) s).frame rq rs := by
  induction l generalizing s with
  | nil => rfl
  | cons a l ih => simp only [List.foldl_cons, arpByMacStep_frame, ih]

theorem macAndARP_frame (api : API) (acl : List PortACL) (rq : List Request)
    (rs : List Piece) (s : Run) :
    macAndARP api acl (s.frame rq rs) = (macAndARP api acl s).frame rq rs := by
  unfold macAndARP
  simp only [frame_request]
  cases hm : api.mac with
  | error e => simp [frame_done]
  | ok m =>
    simp only [frame_add]
    by_cases hl : m.length = 0
    · simp [hl, frame_done]
    · simp only [hl, if_false, foldl_arpByACLStep_frame, foldl_arpByMacStep_frame]
      rw [← frame_done, ← frame_add]
      rfl

theorem aclAndMulticast_frame (api : API) (port0 : Int) (linkUp : Bool) (rq : List Request)
    (rs : List Piece) (s : Run) :
    aclAndMulticast api port0 linkUp (s.frame rq rs)
      = (aclAndMulticast api port0 linkUp s).frame rq rs := by
  unfold aclAndMulticast
  simp only [frame_request]
  cases ha : api.acl <;> cases hm : api.multicast with
  | error e =>
    cases linkUp <;> simp [frame_request, frame_add, frame_done, macAndARP_frame]
  | ok o =>
    cases o with
    | none => simp [frame_request, frame_add, frame_panic]
    | some pr =>
      obtain ⟨m, src⟩ := pr
      by_cases hsrc : src.length = 0 <;> cases linkUp <;>
        simp [hsrc, frame_request, frame_add, frame_done, macAndARP_frame]

theorem fullReport_frame (api : API) (ports : List Port) (linkUp : Bool) (rq : List Request)
    (rs : List Piece) (s : Run) :
    fullReport api ports linkUp (s.frame rq rs) = (fullReport api ports linkUp s).frame rq rs := by
  unfold fullReport
  simp only [frame_request]
  cases hv : api.vlan <;> cases hp : api.portList with
  | error e =>
    cases ports with
    | nil => simp [frame_request, frame_add, frame_panic]
    | cons p0 rest =>
      by_cases hin : intInList p0.Port [] = true <;>
        simp [hin, frame_request, frame_add, frame_done, aclAndMulticast_frame]
  | ok o =>
    cases o with
    | none => simp [frame_request, frame_add, frame_panic]
    | some l =>
      cases ports with
      | nil => simp [frame_request, frame_add, frame_panic]
      | cons p0 rest =>
        by_cases hin : intInList p0.Port l = true <;>
          simp [hin, frame_request, frame_add, frame_done, aclAndMulticast_frame]

/-! ### Failures of single fetches -/

theorem portSummary_of_ports_ok (api : API) (style now : String) (ports : List Port)
    (hports : api.ports = .ok ports) :
    portSummary api style now =
      ⟨[Request.ports, .bandwidth, .counters] ++
          (if style = "full" then
              fullReport api ports (ports.any (fun p => p.Link)) { requests := [], res := [] }
            else Run.done { requests := [], res := [] }).requests,
        (if style = "full" then
              fullReport api ports (ports.any (fun p => p.Link)) { requests := [], res := [] }
            else Run.done { requests := [], res := [] }).result.map
          (fun r => (Piece.ports ports ::
            ((match api.bandwidth with
                | .ok b => [Piece.bandwidth b]
                | .error _ => []) ++
              (match api.counters with
                | .ok c => [Piece.counters c]
                | .error _ => []))) ++ r ++ [Piece.updated now])⟩ := by
  have key : ∀ (rs : List Piece),
      (if style = "full" then
          fullReport api ports (ports.any (fun p => p.Link))
            (Run.frame [Request.ports, .bandwidth, .counters] rs { requests := [], res := [] })
        else Run.done
            (Run.frame [Request.ports, .bandwidth, .counters] rs { requests := [], res := [] }))
      = Outcome.frame [Request.ports, .bandwidth, .counters] rs
          (if style = "full" then
              fullReport api ports (ports.any (fun p => p.Link)) { requests := [], res := [] }
            else Run.done { requests := [], res := [] }) := by
    intro rs
    by_cases hs : style = "full"
    · simp only [hs, if_true, fullReport_frame]
    · simp only [hs, if_false, frame_done]
  unfold portSummary
  rw [hports]
  cases hb : api.bandwidth <;> cases hc : api.counters
  · have := key [Piece.ports ports]
    simp only [Run.frame, List.append_nil] at this
    simp only [Run.request, Run.add, List.nil_append, List.singleton_append, List.cons_append]
    rw [this]
    cases hres : (if style = "full" then
        fullReport api ports (ports.any (fun p => p.Link)) { requests := [], res := [] }
        else Run.done { requests := [], res := [] }).result <;>
      simp [Outcome.frame, Except.map, hres]
  · rename_i c
    have := key [Piece.ports ports, Piece.counters c]
    simp only [Run.frame, List.append_nil] at this
    simp only [Run.request, Run.add, List.nil_append, List.singleton_append, List.cons_append]
    rw [this]
    cases hres : (if style = "full" then
        fullReport api ports (ports.any (fun p => p.Link)) { requests := [], res := [] }
        else Run.done { requests := [], res := [] }).result <;>
      simp [Outcome.frame, Except.map, hres]
  · rename_i b _
    have := key [Piece.ports ports, Piece.bandwidth b]
    simp only [Run.frame, List.append_nil] at this
    simp only [Run.request, Run.add, List.nil_append, List.singleton_append, List.cons_append]
    rw [this]
    cases hres : (if style = "full" then
        fullReport api ports (ports.any (fun p => p.Link)) { requests := [], res := [] }
        else Run.done { requests := [], res := [] }).result <;>
      simp [Outcome.frame, Except.map, hres]
  · rename_i b c
    have := key [Piece.ports ports, Piece.bandwidth b, Piece.counters c]
    simp only [Run.frame, List.append_nil] at this
    simp only [Run.request, Run.add, List.nil_append, List.singleton_append, List.cons_append]
    rw [this]
    cases hres : (if style = "full" then
        fullReport api ports (ports.any (fun p => p.Link)) { requests := [], res := [] }
        else Run.done { requests := [], res := [] }).result <;>
      simp [Outcome.frame, Except.map, hres]

theorem fullReport_bandwidth_irrelevant (api : API) (f : Fetch PortBandwidth)
    (ports : List Port) (linkUp : Bool) (s : Run) :
    fullReport { api with bandwidth := f } ports linkUp s = fullReport api ports linkUp s :=
  rfl

theorem fullReport_counters_irrelevant (api : API) (f : Fetch PortCounters)
    (ports : List Port) (linkUp : Bool) (s : Run) :
    fullReport { api with counters := f } ports linkUp s = fullReport api ports linkUp s :=
  rfl

/-- C8 (as the code behaves): when the port-state fetch succeeds, a failure of the
bandwidth fetch alone, or of the counters fetch alone, omits only that section: the same
requests are sent, and the report is the same text without that section (or the run ends
in the same panic). A failure of the port-state fetch ends the report instead:
`portSummary` returns the error block alone and sends no further request. -/
theorem bandwidth_counters_failure_omits_section (api : API) (style now e : String)
    (ports : List Port) (hports : api.ports = .ok ports) :
    (∀ b, api.bandwidth = .ok b →
      (portSummary { api with bandwidth := .error e } style now).requests
          = (portSummary api style now).requests ∧
        ((∃ p, (portSummary api style now).result = .error p ∧
            (portSummary { api with bandwidth := .error e } style now).result = .error p) ∨
          ∃ pre post,
            (portSummary api style now).result = .ok (pre ++ Piece.bandwidth b :: post) ∧
            (portSummary { api with bandwidth := .error e } style now).result
              = .ok (pre ++ post))) ∧
      (∀ c, api.counters = .ok c →
        (portSummary { api with counters := .error e } style now).requests
            = (portSummary api style now).requests ∧
          ((∃ p, (portSummary api style now).result = .error p ∧
              (portSummary { api with counters := .error e } style now).result = .error p) ∨
            ∃ pre post,
              (portSummary api style now).result = .ok (pre ++ Piece.counters c :: post) ∧
              (portSummary { api with counters := .error e } style now).result
                = .ok (pre ++ post))) ∧
      portSummary { api with ports := .error e } style now
        = ⟨[Request.ports], .ok [Piece.err e]⟩ := by
  refine ⟨?_, ?_, ?_⟩
  · intro b hb
    have h1 := portSummary_of_ports_ok api style now ports hports
    have h2 := portSummary_of_ports_ok { api with bandwidth := .error e } style now ports hports
    simp only [fullReport_bandwidth_irrelevant] at h2
    rw [h1, h2]
    simp only [hb]
    cases hres : (if style = "full" then
        fullReport api ports (ports.any (fun p => p.Link)) { requests := [], res := [] }
        else Run.done { requests := [], res := [] }).result with
    | error p => exact ⟨trivial, Or.inl ⟨p, rfl, rfl⟩⟩
    | ok r =>
      refine ⟨trivial, Or.inr ⟨[Piece.ports ports], _, ?_, rfl⟩⟩
      simp [Except.map]
  · intro c hc
    have h1 := portSummary_of_ports_ok api style now ports hports
    have h2 := portSummary_of_ports_ok { api with counters := .error e } style now ports hports
    simp only [fullReport_counters_irrelevant] at h2
    rw [h1, h2]
    simp only [hc]
    cases hres : (if style = "full" then
        fullReport api ports (ports.any (fun p => p.Link)) { requests := [], res := [] }
        else Run.done { requests := [], res := [] }).result with
    | error p => exact ⟨trivial, Or.inl ⟨p, rfl, rfl⟩⟩
    | ok r =>
      refine ⟨trivial, Or.inr ⟨Piece.ports ports :: (match api.bandwidth with
        | .ok b => [Piece.bandwidth b]
        | .error _ => []), r ++ [Piece.updated now], ?_, ?_⟩⟩ <;>
        simp [Except.map]
  · simp [portSummary, Run.request, Run.add, Run.done]

/-- C8 witness: the bandwidth fetch of the example switch fails. -/
theorem bandwidth_counters_failure_omits_section_witness :
    (portSummary { sampleAPI with bandwidth := .error "API request failed" } "full"
        "T").requests = (portSummary sampleAPI "full" "T").requests ∧
      ((∃ p, (portSummary sampleAPI "full" "T").result = .error p ∧
          (portSummary { sampleAPI with bandwidth := .error "API request failed" } "full"
            "T").result = .error p) ∨
        ∃ pre post,
          (portSummary sampleAPI "full" "T").result
            = .ok (pre ++ Piece.bandwidth ⟨0, 0⟩ :: post) ∧
          (portSummary { sampleAPI with bandwidth := .error "API request failed" } "full"
            "T").result = .ok (pre ++ post)) :=
  (bandwidth_counters_failure_omits_section sampleAPI "full" "T" "API request failed"
    [samplePort 1 true] rfl).1 ⟨0, 0⟩ rfl

/-- C8 counterexample: when the port-state fetch fails, the bandwidth fetch, which would
succeed, is not sent and the report is the error block alone. -/
theorem port_state_failure_ends_report :
    sampleAPI.bandwidth = .ok ⟨0, 0⟩ ∧
      Request.bandwidth ∈ (portSummary sampleAPI "short" "T").requests ∧
      Request.bandwidth ∉
        (portSummary { sampleAPI with ports := .error "API request failed" } "short"
          "T").requests ∧
      (portSummary { sampleAPI with ports := .error "API request failed" } "short" "T").result
        = .ok [Piece.err "API request failed"] :=
  ⟨rfl, by decide, by decide, rfl⟩

/-! ### The "Updated" line -/

theorem renderAll_append (tpl : Templates) (a b : List Piece) :
    renderAll tpl (a ++ b) = renderAll tpl a ++ renderAll tpl b := by
  induction a with
  | nil => simp [renderAll]
  | cons x xs ih => simp [renderAll, ih, String.append_assoc]

theorem renderAll_updated (tpl : Templates) (a : List Piece) (now : String) :
    renderAll tpl (a ++ [Piece.updated now]) = renderAll tpl a ++ printUpdated now := by
  rw [renderAll_append]
  simp [renderAll, Piece.render]

theorem macAndARP_ok (api : API) (acl : List PortACL) (s : Run) :
    ∃ r, (macAndARP api acl s).result = .ok r := by
  unfold macAndARP
  cases api.mac with
  | error e => simp [Run.done]
  | ok m =>
    by_cases hl : m.length = 0
    · simp [hl, Run.done]
    · simp [hl, Run.done]

theorem aclAndMulticast_ok (api : API) (port0 : Int) (linkUp : Bool) (s : Run)
    (hmc : api.multicast ≠ .ok none) :
    ∃ r, (aclAndMulticast api port0 linkUp s).result = .ok r := by
  unfold aclAndMulticast
  cases hm : api.multicast with
  | error e =>
    cases linkUp
    · simp [Run.done]
    · simpa using macAndARP_ok api _ _
  | ok o =>
    cases o with
    | none => exact absurd hm hmc
    | some pr =>
      obtain ⟨m, src⟩ := pr
      cases linkUp
      · simp [Run.done]
      · simpa using macAndARP_ok api _ _

theorem fullReport_ok (api : API) (ports : List Port) (linkUp : Bool) (s : Run)
    (hne : ports ≠ []) (hpl : api.portList ≠ .ok none) (hmc : api.multicast ≠ .ok none) :
    ∃ r, (fullReport api ports linkUp s).result = .ok r := by
  obtain ⟨p0, rest, rfl⟩ := List.exists_cons_of_ne_nil hne
  unfold fullReport
  cases hp : api.portList with
  | error e =>
    by_cases hin : intInList p0.Port [] = true
    · simpa [hin] using aclAndMulticast_ok api _ _ _ hmc
    · simp [hin, Run.done]
  | ok o =>
    cases o with
    | none => exact absurd hp hpl
    | some l =>
      by_cases hin : intInList p0.Port l = true
      · simpa [hin] using aclAndMulticast_ok api _ _ _ hmc
      · simp [hin, Run.done]

/-- C9 (as the code behaves): for every style and every combination of successful and
failed fetches in which the port-state fetch succeeds, a text returned by `portSummary`
ends with the "Updated:" line of `printUpdated`; and a text is returned whenever the style
is not full, or the port list is not empty and the `data` of the port-list and multicast
responses are objects. -/
theorem report_ends_with_updated (tpl : Templates) (api : API) (style now : String)
    (ports : List Port) (hports : api.ports = .ok ports) :
    (∀ text, portSummaryText tpl api style now = .ok text →
        ∃ pre, text = pre ++ printUpdated now) ∧
      ((style = "full" →
          ports ≠ [] ∧ api.portList ≠ .ok none ∧ api.multicast ≠ .ok none) →
        ∃ pre, portSummaryText tpl api style now = .ok (pre ++ printUpdated now)) := by
  have h1 := portSummary_of_ports_ok api style now ports hports
  have hmain : ∀ r, (if style = "full" then
        fullReport api ports (ports.any (fun p => p.Link)) { requests := [], res := [] }
        else Run.done { requests := [], res := [] }).result = .ok r →
      ∃ pre, portSummaryText tpl api style now = .ok (pre ++ printUpdated now) := by
    intro r hr
    unfold portSummaryText
    rw [h1]
    simp only [hr, Except.map]
    exact ⟨_, congrArg Except.ok (renderAll_updated tpl _ now)⟩
  constructor
  · intro text htext
    cases hres : (if style = "full" then
        fullReport api ports (ports.any (fun p => p.Link)) { requests := [], res := [] }
        else Run.done { requests := [], res := [] }).result with
    | error p =>
      unfold portSummaryText at htext
      rw [h1] at htext
      simp [hres, Except.map] at htext
    | ok r =>
      obtain ⟨pre, hpre⟩ := hmain r hres
      rw [hpre] at htext
      exact ⟨pre, (Except.ok.inj htext).symm⟩
  · intro hcond
    by_cases hs : style = "full"
    · obtain ⟨hne, hpl, hmc⟩ := hcond hs
      obtain ⟨r, hr⟩ := fullReport_ok api ports (ports.any (fun p => p.Link))
        { requests := [], res := [] } hne hpl hmc
      exact hmain r (by simp [hs, hr])
    · exact hmain [] (by simp [hs, Run.done])

/-- C9 witness: the full report of the example switch. -/
theorem report_ends_with_updated_witness :
    ∃ pre, portSummaryText sampleTemplates sampleAPI "full" "2022-01-01 00:00:00"
      = .ok (pre ++ printUpdated "2022-01-01 00:00:00") :=
  (report_ends_with_updated sampleTemplates sampleAPI "full" "2022-01-01 00:00:00"
    [samplePort 1 true] rfl).2
    (fun _ => ⟨by decide, fun h => Except.noConfusion h (fun h2 => Option.noConfusion h2),
      fun h => Except.noConfusion h (fun h2 => Option.noConfusion h2)⟩)

/-- C9 counterexample: when the port-state fetch fails the returned text is the error
block, which does not end with the "Updated:" line. -/
theorem report_without_updated :
    portSummaryText sampleTemplates
        { sampleAPI with ports := .error "API request failed" } "full" "2022-01-01 00:00:00"
      = .ok (fmtErr "API request failed") ∧
    ¬ ∃ pre, fmtErr "API request failed" = pre ++ printUpdated "2022-01-01 00:00:00" := by
  refine ⟨rfl, ?_⟩
  rintro ⟨pre, h⟩
  have h2 : (printUpdated "2022-01-01 00:00:00").data <:+ (fmtErr "API request failed").data := by
    rw [h, String.data_append]
    exact List.suffix_append _ _
  revert h2
  decide

/-! ### The probe manager -/

theorem running_stop (log : List PingEvent) (p : Pinger) (uid : Int) :
    running (log ++ [PingEvent.stop p, PingEvent.delete uid])
      = (running log).filter (fun q => decide (q.2 ≠ p)) := by
  simp [running, List.foldl_append]

theorem running_newPinger (log : List PingEvent) (host : String) :
    running (log ++ [PingEvent.newPinger host]) = running log := by
  simp [running, List.foldl_append]

theorem running_store_run (log : List PingEvent) (uid : Int) (p : Pinger) :
    running (log ++ [PingEvent.store uid p, PingEvent.run uid p])
      = running log ++ [(uid, p)] := by
  simp [running, List.foldl_append]

theorem consistent_init : initPingers.consistent := by
  simp [PingState.consistent, initPingers, running]

theorem consistent_stop (s : PingState) (hs : s.consistent) (uid : Int) :
    (pingerStop uid s).consistent := by
  obtain ⟨h1, h2, h3⟩ := hs
  unfold pingerStop
  cases hp : s.Pingers uid with
  | none => exact ⟨h1, h2, h3⟩
  | some p =>
    have hmem : (uid, p) ∈ running s.log := (h1 uid p).2 hp
    refine ⟨?_, ?_, ?_⟩
    · intro v p'
      simp only [running_stop, List.mem_filter, decide_eq_true_eq]
      by_cases hv : v = uid
      · subst hv
        simp only [if_true]
        constructor
        · rintro ⟨hin, hne⟩
          have := (h1 v p').1 hin
          rw [hp] at this
          exact absurd (Option.some.inj this).symm hne
        · intro h
          exact absurd h (by simp)
      · simp only [hv, if_false]
        constructor
        · rintro ⟨hin, _⟩
          exact (h1 v p').1 hin
        · intro h
          have hin : (v, p') ∈ running s.log := (h1 v p').2 h
          refine ⟨hin, ?_⟩
          intro heq
          have hinj := List.inj_on_of_nodup_map h2 hin hmem (by simp [heq])
          exact hv (Prod.mk.inj hinj).1
    · simp only [running_stop]
      exact h2.sublist ((List.filter_sublist _).map _)
    · intro q hq
      simp only [running_stop, List.mem_filter] at hq
      exact h3 q hq.1

theorem consistent_start (s : PingState) (hs : s.consistent) (uid : Int) (host : String)
    (newPinger : Except String Unit) :
    (pingerStart uid host newPinger s).1.consistent := by
  have hs1 : (if (s.Pingers uid).isSome then pingerStop uid s else s).consistent := by
    split
    · exact consistent_stop s hs uid
    · exact hs
  have hnone : (if (s.Pingers uid).isSome then pingerStop uid s else s).Pingers uid = none := by
    cases hp : s.Pingers uid with
    | none => simp [hp]
    | some p => simp [hp, pingerStop]
  unfold pingerStart
  generalize (if (s.Pingers uid).isSome then pingerStop uid s else s) = t at hs1 hnone
  obtain ⟨h1, h2, h3⟩ := hs1
  cases newPinger with
  | error e =>
    exact ⟨by simpa [running_newPinger] using h1, by simpa [running_newPinger] using h2,
      by simpa [running_newPinger] using h3⟩
  | ok u =>
    refine ⟨?_, ?_, ?_⟩
    · intro v p'
      simp only [running_store_run, running_newPinger, List.mem_append, List.mem_singleton,
        Prod.mk.injEq]
      by_cases hv : v = uid
      · subst hv
        simp only [if_true, true_and]
        constructor
        · rintro (hin | rfl)
          · have := (h1 v p').1 hin
            rw [hnone] at this
            exact absurd this (by simp)
          · rfl
        · intro h
          exact Or.inr (Option.some.inj h).symm
      · simp only [hv, if_false, false_and, or_false]
        exact h1 v p'
    · simp only [running_store_run, running_newPinger, List.map_append, List.map_cons,
        List.map_nil]
      rw [List.nodup_append]
      refine ⟨h2, by simp, ?_⟩
      intro a ha hb
      simp only [List.mem_singleton] at hb
      obtain ⟨q, hq, rfl⟩ := List.mem_map.1 ha
      have := h3 q hq
      omega
    · intro q hq
      simp only [running_store_run, running_newPinger, List.mem_append,
        List.mem_singleton] at hq
      rcases hq with hq | rfl
      · exact Nat.lt_succ_of_lt (h3 q hq)
      · exact Nat.lt_succ_self _

theorem consistent_foldl (calls : List PingCall) (s : PingState) (hs : s.consistent) :
    (calls.foldl PingCall.apply s).consistent := by
  induction calls generalizing s with
  | nil => exact hs
  | cons c cs ih =>
    rw [List.foldl_cons]
    apply ih
    cases c with
    | start uid host newPinger => exact consistent_start s hs uid host newPinger
    | stop uid => exact consistent_stop s hs uid

theorem length_le_one_of_all_eq {α : Type} (l : List α) (hn : l.Nodup)
    (h : ∀ x ∈ l, ∀ y ∈ l, x = y) : l.length ≤ 1 := by
  match l, hn, h with
  | [], _, _ => simp
  | [_], _, _ => simp
  | a :: b :: t, hn, h =>
    have hab : a = b := h a (by simp) b (by simp)
    rw [hab] at hn
    simp at hn

theorem uid_probes_le_one (s : PingState) (hs : s.consistent) (uid : Int) :
    ((running s.log).filter (fun q => decide (q.1 = uid))).length ≤ 1 := by
  obtain ⟨h1, h2, _⟩ := hs
  apply length_le_one_of_all_eq
  · exact (List.Nodup.of_map _ h2).filter _
  · intro x hx y hy
    simp only [List.mem_filter, decide_eq_true_eq] at hx hy
    have hx2 := (h1 x.1 x.2).1 hx.1
    have hy2 := (h1 y.1 y.2).1 hy.1
    rw [hx.2] at hx2
    rw [hy.2, hx2] at hy2
    exact Prod.ext (hx.2.trans hy.2.symm) (Option.some.inj hy2)

theorem uid_probes_eq_singleton (s : PingState) (hs : s.consistent) (uid : Int) (p : Pinger)
    (hp : s.Pingers uid = some p) :
    (running s.log).filter (fun q => decide (q.1 = uid)) = [(uid, p)] := by
  have hlen := uid_probes_le_one s hs uid
  have hmem : (uid, p) ∈ (running s.log).filter (fun q => decide (q.1 = uid)) := by
    simp only [List.mem_filter, decide_eq_true_eq, and_true]
    exact (hs.1 uid p).2 hp
  generalize (running s.log).filter (fun q => decide (q.1 = uid)) = l at hlen hmem
  match l, hlen, hmem with
  | [], _, hmem => simp at hmem
  | [x], _, hmem =>
    rw [List.mem_singleton.1 hmem]
  | _ :: _ :: _, hlen, _ => simp at hlen

theorem uid_probes_eq_nil (s : PingState) (hs : s.consistent) (uid : Int)
    (hp : s.Pingers uid = none) :
    (running s.log).filter (fun q => decide (q.1 = uid)) = [] := by
  rw [List.filter_eq_nil_iff]
  intro q hq hquid
  simp only [decide_eq_true_eq] at hquid
  have := (hs.1 q.1 q.2).1 hq
  rw [hquid, hp] at this
  simp at this

theorem pingerStart_ok_log (s : PingState) (uid : Int) (host : String) :
    (pingerStart uid host (.ok ()) s).1.log =
      s.log ++
        (match s.Pingers uid with
          | some p => [PingEvent.stop p, PingEvent.delete uid]
          | none => []) ++
        [PingEvent.newPinger host, PingEvent.store uid ⟨s.made, host⟩,
          PingEvent.run uid ⟨s.made, host⟩] := by
  cases hp : s.Pingers uid <;> simp [pingerStart, pingerStop, hp]

theorem pingerStart_stops_old (s : PingState) (hs : s.consistent) (uid : Int) (host : String)
    (p : Pinger) (hp : s.Pingers uid = some p) :
    ∀ v, (v, p) ∉ running (pingerStart uid host (.ok ()) s).1.log := by
  intro v hv
  have hid : p.id < s.made := hs.2.2 (uid, p) ((hs.1 uid p).2 hp)
  rw [pingerStart_ok_log, hp] at hv
  have hlog : s.log ++ [PingEvent.stop p, PingEvent.delete uid] ++
      [PingEvent.newPinger host, PingEvent.store uid ⟨s.made, host⟩,
        PingEvent.run uid ⟨s.made, host⟩]
      = ((s.log ++ [PingEvent.stop p, PingEvent.delete uid]) ++ [PingEvent.newPinger host])
        ++ [PingEvent.store uid ⟨s.made, host⟩, PingEvent.run uid ⟨s.made, host⟩] := by
    simp
  simp only at hv
  rw [hlog, running_store_run, running_newPinger, running_stop] at hv
  rcases List.mem_append.1 hv with hv | hv
  · simp at hv
  · simp only [List.mem_singleton, Prod.mk.injEq] at hv
    rw [hv.2] at hid
    simp at hid

/-- C5: after every sequence of `pingerStart` and `pingerStop` calls (for one user or for
several), for every user the probes started for the user and not stopped are exactly the
user's entry of the registry, so at most one. A `pingerStart` whose probe is constructed
stops and deregisters the probe registered for the user, if any, and only then makes,
registers and starts the new probe: it returns no error, the new probe is the user's entry
and the one probe running for the user, and the old probe runs for no user. After
`pingerStop` no probe is registered or running for the user. -/
theorem one_probe_per_user (calls : List PingCall) (uid : Int) :
    (∀ p, (uid, p) ∈ running (runCalls calls).log ↔ (runCalls calls).Pingers uid = some p) ∧
      ((running (runCalls calls).log).filter (fun q => decide (q.1 = uid))).length ≤ 1 ∧
      (∀ host p, (runCalls calls).Pingers uid = some p →
        (pingerStart uid host (.ok ()) (runCalls calls)).1.log
          = (runCalls calls).log ++
            [PingEvent.stop p, PingEvent.delete uid, PingEvent.newPinger host,
              PingEvent.store uid ⟨(runCalls calls).made, host⟩,
              PingEvent.run uid ⟨(runCalls calls).made, host⟩]) ∧
      (∀ host, (runCalls calls).Pingers uid = none →
        (pingerStart uid host (.ok ()) (runCalls calls)).1.log
          = (runCalls calls).log ++
            [PingEvent.newPinger host,
              PingEvent.store uid ⟨(runCalls calls).made, host⟩,
              PingEvent.run uid ⟨(runCalls calls).made, host⟩]) ∧
      (∀ host,
        (pingerStart uid host (.ok ()) (runCalls calls)).2 = none ∧
        (pingerStart uid host (.ok ()) (runCalls calls)).1.Pingers uid
          = some ⟨(runCalls calls).made, host⟩ ∧
        (running (pingerStart uid host (.ok ()) (runCalls calls)).1.log).filter
            (fun q => decide (q.1 = uid))
          = [(uid, ⟨(runCalls calls).made, host⟩)] ∧
        (∀ p, (runCalls calls).Pingers uid = some p →
          ∀ v, (v, p) ∉ running (pingerStart uid host (.ok ()) (runCalls calls)).1.log)) ∧
      ((pingerStop uid (runCalls calls)).Pingers uid = none ∧
        (running (pingerStop uid (runCalls calls)).log).filter
          (fun q => decide (q.1 = uid)) = []) ∧
      (runCalls [.start 7 "a" (.ok ()), .start 7 "b" (.ok ())]).log
        = [PingEvent.newPinger "a", PingEvent.store 7 ⟨0, "a"⟩, PingEvent.run 7 ⟨0, "a"⟩,
            PingEvent.stop ⟨0, "a"⟩, PingEvent.delete 7,
            PingEvent.newPinger "b", PingEvent.store 7 ⟨1, "b"⟩, PingEvent.run 7 ⟨1, "b"⟩] ∧
      (runCalls [.start 7 "a" (.ok ()), .start 7 "b" (.ok ())]).Pingers 7 = some ⟨1, "b"⟩ ∧
      running (runCalls [.start 7 "a" (.ok ()), .start 7 "b" (.ok ())]).log
        = [(7, ⟨1, "b"⟩)] ∧
      running (runCalls [.start 7 "a" (.ok ()), .stop 7]).log = [] := by
  have hc : (runCalls calls).consistent := consistent_foldl calls _ consistent_init
  refine ⟨hc.1 uid, uid_probes_le_one _ hc uid, ?_, ?_, ?_, ?_, by decide, by decide,
    by decide, by decide⟩
  · intro host p hp
    rw [pingerStart_ok_log, hp]
    simp
  · intro host hp
    rw [pingerStart_ok_log, hp]
    simp
  · intro host
    have hreg : (pingerStart uid host (.ok ()) (runCalls calls)).1.Pingers uid
        = some ⟨(runCalls calls).made, host⟩ := by
      cases hp : (runCalls calls).Pingers uid <;> simp [pingerStart, pingerStop, hp]
    refine ⟨by simp [pingerStart], hreg, ?_, ?_⟩
    · exact uid_probes_eq_singleton _ (consistent_start _ hc uid host (.ok ())) uid _ hreg
    · intro p hp
      exact pingerStart_stops_old _ hc uid host p hp
  · have hnone : (pingerStop uid (runCalls calls)).Pingers uid = none := by
      cases hp : (runCalls calls).Pingers uid <;> simp [pingerStop, hp]
    exact ⟨hnone, uid_probes_eq_nil _ (consistent_stop _ hc uid) uid hnone⟩

/-- C10: for every registry state, user and host for which the construction of the probe
fails with error `e`, `pingerStart` returns `e`, leaves no probe registered for the user (a
probe registered before has been stopped and is running for no user), and leaves every
other user's registry entry unchanged. -/
theorem pingerStart_construction_failure (s : PingState) (uid : Int) (host e : String) :
    (pingerStart uid host (.error e) s).2 = some e ∧
      (pingerStart uid host (.error e) s).1.Pingers uid = none ∧
      (∀ v, v ≠ uid → (pingerStart uid host (.error e) s).1.Pingers v = s.Pingers v) ∧
      (∀ p, s.Pingers uid = some p →
        PingEvent.stop p ∈ (pingerStart uid host (.error e) s).1.log ∧
        ∀ v, (v, p) ∉ running (pingerStart uid host (.error e) s).1.log) := by
  cases hp : s.Pingers uid with
  | none => simp [pingerStart, hp]
  | some p =>
    refine ⟨by simp [pingerStart, hp], by simp [pingerStart, pingerStop, hp], ?_, ?_⟩
    · intro v hv
      simp [pingerStart, pingerStop, hp, hv]
    · intro p' hp'
      cases hp'
      have hlog : (pingerStart uid host (.error e) s).1.log
          = (s.log ++ [PingEvent.stop p, PingEvent.delete uid]) ++ [PingEvent.newPinger host] := by
        simp [pingerStart, pingerStop, hp]
      rw [hlog]
      refine ⟨by simp, ?_⟩
      intro v
      rw [running_newPinger, running_stop]
      simp

/-! ### Callback updates -/

theorem finishCallback_no_transport (cfg : Config) (uid : Int) (mode action : String)
    (ran : Effect) (reply : Reply) (hran : ran.isTransport = false)
    (ha : action ≠ "send" ∧ action ≠ "edit") :
    ∀ e ∈ (finishCallback cfg uid mode action ran reply).effects, e.isTransport = false := by
  unfold finishCallback
  cases reply with
  | error p => simpa using hran
  | ok r =>
    obtain ⟨res, kb⟩ := r
    intro e he
    simp [ha.1, ha.2] at he
    rcases he with rfl | rfl
    · exact hran
    · rfl

theorem finishCallback_restores (cfg : Config) (uid : Int) (mode action : String)
    (ran : Effect) (reply : Reply) (u : User) (hu : cfg.Users uid = some u) :
    ran ∈ (finishCallback cfg uid mode action ran reply).effects ∧
      ((finishCallback cfg uid mode action ran reply).panic = none →
        (finishCallback cfg uid mode action ran reply).Users uid
          = some { u with Mode := mode }) := by
  unfold finishCallback
  cases reply with
  | error p => simp
  | ok r =>
    obtain ⟨res, kb⟩ := r
    simp [setMode, hu]

/-- A callback whose mode or whose action is outside the
recognised vocabulary sends and edits no message. When the mode is not recognised the
firing is a no-op: the session modes are unchanged and no handler is run. When the mode is
recognised and only the action is not, the handler of the mode is run, and when it returns
the session's mode is set to the callback's mode, as for every callback. -/
theorem unknown_callback_sends_nothing (h : Handlers) (cfg : Config) (uid : Int)
    (data : String)
    (hbad : ((decodeCallback data).1 ≠ "raw" ∧ (decodeCallback data).1 ≠ "search") ∨
      ((decodeCallback data).2.1 ≠ "send" ∧ (decodeCallback data).2.1 ≠ "edit")) :
    (∀ e ∈ (handleCallback h cfg uid data).effects, e.isTransport = false) ∧
      (((decodeCallback data).1 ≠ "raw" ∧ (decodeCallback data).1 ≠ "search") →
        (handleCallback h cfg uid data).Users = cfg.Users ∧
        ∀ e ∈ (handleCallback h cfg uid data).effects, e.isHandler = false) ∧
      ((decodeCallback data).1 = "raw" → ∀ u, cfg.Users uid = some u →
        Effect.rawHandler (decodeCallback data).2.2 ∈ (handleCallback h cfg uid data).effects ∧
        ((handleCallback h cfg uid data).panic = none →
          (handleCallback h cfg uid data).Users uid = some { u with Mode := "raw" })) ∧
      ((decodeCallback data).1 = "search" → ∀ u kw p, cfg.Users uid = some u →
        splitLast (decodeCallback data).2.2 = .ok (kw, p) →
        Effect.searchHandler kw (atoi p) ∈ (handleCallback h cfg uid data).effects ∧
        ((handleCallback h cfg uid data).panic = none →
          (handleCallback h cfg uid data).Users uid = some { u with Mode := "search" })) := by
  rcases hsa : splitArgs data with ⟨mode, args⟩
  rcases hsb : splitArgs args with ⟨action, cmd⟩
  have hdec : decodeCallback data = (mode, action, cmd) := by
    simp [decodeCallback, hsa, hsb]
  rw [hdec] at hbad
  simp only [hdec]
  have hempty : data = "" → mode = "" := by
    intro hd
    subst hd
    have : splitArgs "" = ("", "") := by decide
    rw [this] at hsa
    exact (Prod.mk.inj hsa).1.symm
  refine ⟨?_, ?_, ?_, ?_⟩
  · unfold handleCallback
    split
    · simp
    · split
      · simp
      · cases hu : cfg.Users uid with
        | none => simp
        | some u =>
          simp only [hsa, hsb]
          by_cases hraw : mode = "raw"
          · rcases hbad with hb | hb
            · exact absurd hraw hb.1
            · simpa [hraw] using finishCallback_no_transport cfg uid "raw" action
                (Effect.rawHandler cmd) (h.rawHandler cmd) rfl hb
          · by_cases hsearch : mode = "search"
            · rcases hbad with hb | hb
              · exact absurd hsearch hb.2
              · simp only [hraw, if_false, hsearch, if_true]
                cases hsl : splitLast cmd with
                | error p => simp
                | ok r =>
                  obtain ⟨kw, p⟩ := r
                  exact finishCallback_no_transport cfg uid "search" action
                    (Effect.searchHandler kw (atoi p)) (h.searchHandler kw (atoi p)) rfl hb
            · simp [hraw, hsearch, Effect.isTransport]
  · rintro ⟨hraw, hsearch⟩
    unfold handleCallback
    split
    · simp
    · split
      · simp
      · cases hu : cfg.Users uid with
        | none => simp
        | some u => simp [hsa, hsb, hraw, hsearch, Effect.isHandler]
  · intro hraw u hu
    have hd : data ≠ "" := fun hd => by
      have := hempty hd
      rw [hraw] at this
      exact absurd this (by decide)
    have hauth : userIsAuthorized cfg uid = true := by simp [userIsAuthorized, hu]
    unfold handleCallback
    simp only [hauth, Bool.not_true, Bool.false_and, Bool.false_eq_true, if_false, hd, hu,
      hsa, hsb, hraw, if_true]
    exact finishCallback_restores cfg uid "raw" action _ _ u hu
  · intro hsearch u kw p hu hsl
    have hd : data ≠ "" := fun hd => by
      have := hempty hd
      rw [hsearch] at this
      exact absurd this (by decide)
    have hauth : userIsAuthorized cfg uid = true := by simp [userIsAuthorized, hu]
    have hnr : ¬ ("search" = "raw") := by decide
    unfold handleCallback
    simp only [hauth, Bool.not_true, Bool.false_and, Bool.false_eq_true, if_false, hd, hu,
      hsa, hsb, hsearch, hnr, if_true, hsl]
    exact finishCallback_restores cfg uid "search" action _ _ u hu

theorem decodeCallback_empty_mode (data : String) (h : (decodeCallback data).1 ≠ "") :
    data ≠ "" := by
  intro hd
  subst hd
  exact h (by decide)

theorem handleCallback_raw (h : Handlers) (cfg : Config) (uid : Int) (data : String)
    (u : User) (hu : cfg.Users uid = some u) (hraw : (decodeCallback data).1 = "raw") :
    handleCallback h cfg uid data
      = finishCallback cfg uid "raw" (decodeCallback data).2.1
          (Effect.rawHandler (decodeCallback data).2.2)
          (h.rawHandler (decodeCallback data).2.2) := by
  have hd : data ≠ "" := decodeCallback_empty_mode data (by rw [hraw]; decide)
  have hauth : userIsAuthorized cfg uid = true := by simp [userIsAuthorized, hu]
  rcases hsa : splitArgs data with ⟨mode, args⟩
  rcases hsb : splitArgs args with ⟨action, cmd⟩
  have hdec : decodeCallback data = (mode, action, cmd) := by
    simp [decodeCallback, hsa, hsb]
  rw [hdec] at hraw ⊢
  simp only at hraw
  unfold handleCallback
  simp only [hauth, Bool.not_true, Bool.false_and, Bool.false_eq_true, if_false, hd, hu,
    hsa, hsb, hraw, if_true]

theorem handleCallback_search (h : Handlers) (cfg : Config) (uid : Int) (data : String)
    (u : User) (hu : cfg.Users uid = some u) (hsearch : (decodeCallback data).1 = "search") :
    handleCallback h cfg uid data
      = match splitLast (decodeCallback data).2.2 with
        | .error p => ⟨cfg.Users, [], some p⟩
        | .ok (kw, p) =>
          finishCallback cfg uid "search" (decodeCallback data).2.1
            (Effect.searchHandler kw (atoi p)) (h.searchHandler kw (atoi p)) := by
  have hd : data ≠ "" := decodeCallback_empty_mode data (by rw [hsearch]; decide)
  have hauth : userIsAuthorized cfg uid = true := by simp [userIsAuthorized, hu]
  have hnr : ¬ ("search" = "raw") := by decide
  rcases hsa : splitArgs data with ⟨mode, args⟩
  rcases hsb : splitArgs args with ⟨action, cmd⟩
  have hdec : decodeCallback data = (mode, action, cmd) := by
    simp [decodeCallback, hsa, hsb]
  rw [hdec] at hsearch ⊢
  simp only at hsearch
  unfold handleCallback
  simp only [hauth, Bool.not_true, Bool.false_and, Bool.false_eq_true, if_false, hd, hu,
    hsa, hsb, hsearch, hnr, if_true]

theorem finishCallback_unknown_action (cfg : Config) (uid : Int) (mode action : String)
    (ran : Effect) (res : String) (kb : Keyboard) (u : User) (hu : cfg.Users uid = some u)
    (h1 : action ≠ "send") (h2 : action ≠ "edit") :
    (finishCallback cfg uid mode action ran (.ok (res, kb))).effects
        = [ran, Effect.callbackDone] ∧
      (finishCallback cfg uid mode action ran (.ok (res, kb))).Users uid
        = some { u with Mode := mode } ∧
      (finishCallback cfg uid mode action ran (.ok (res, kb))).panic = none := by
  simp [finishCallback, h1, h2, setMode, hu]

/-- C7 at the failing input: the callback `raw foo 59.75 1 clear` has the recognised mode
`raw` and the unknown action `foo`; fired for a user in ping mode it runs the raw handler
and leaves the user in raw mode, where the claim says a no-op. So does every callback with
a recognised mode and an unknown action whose handler is reached and returns (for the mode
`search` the command must have a space, or `splitLast` ends the program first): the handler
is run and the session's mode is set to the callback's mode, and only the sending is
skipped. A callback with an unknown mode is a no-op, as the claim says. -/
theorem unknown_action_runs_handler :
    decodeCallback "raw foo 59.75 1 clear" = ("raw", "foo", "59.75 1 clear") ∧
      sampleConfig.Users 7 = some ⟨"user", "ping"⟩ ∧
      (handleCallback sampleHandlers sampleConfig 7 "raw foo 59.75 1 clear").Users 7
        = some ⟨"user", "raw"⟩ ∧
      (handleCallback sampleHandlers sampleConfig 7 "raw foo 59.75 1 clear").effects
        = [Effect.rawHandler "59.75 1 clear", Effect.callbackDone] ∧
      (handleCallback sampleHandlers sampleConfig 7 "search foo kw 2").Users 7
        = some ⟨"user", "search"⟩ ∧
      (handleCallback sampleHandlers sampleConfig 7 "search foo kw 2").effects
        = [Effect.searchHandler "kw" 2, Effect.callbackDone] ∧
      (handleCallback sampleHandlers sampleConfig 7 "bogus edit x").Users 7
        = some ⟨"user", "ping"⟩ ∧
      (handleCallback sampleHandlers sampleConfig 7 "bogus edit x").effects
        = [Effect.callbackDone] ∧
      (∀ (h : Handlers) (cfg : Config) (uid : Int) (data : String) (u : User)
          (res : String) (kb : Keyboard),
        cfg.Users uid = some u → (decodeCallback data).1 = "raw" →
        (decodeCallback data).2.1 ≠ "send" → (decodeCallback data).2.1 ≠ "edit" →
        h.rawHandler (decodeCallback data).2.2 = .ok (res, kb) →
        (handleCallback h cfg uid data).effects
            = [Effect.rawHandler (decodeCallback data).2.2, Effect.callbackDone] ∧
          (handleCallback h cfg uid data).Users uid = some { u with Mode := "raw" } ∧
          (handleCallback h cfg uid data).panic = none) ∧
      (∀ (h : Handlers) (cfg : Config) (uid : Int) (data : String) (u : User)
          (kw p res : String) (kb : Keyboard),
        cfg.Users uid = some u → (decodeCallback data).1 = "search" →
        (decodeCallback data).2.1 ≠ "send" → (decodeCallback data).2.1 ≠ "edit" →
        splitLast (decodeCallback data).2.2 = .ok (kw, p) →
        h.searchHandler kw (atoi p) = .ok (res, kb) →
        (handleCallback h cfg uid data).effects
            = [Effect.searchHandler kw (atoi p), Effect.callbackDone] ∧
          (handleCallback h cfg uid data).Users uid = some { u with Mode := "search" } ∧
          (handleCallback h cfg uid data).panic = none) ∧
      (∀ (h : Handlers) (cfg : Config) (uid : Int) (data : String),
        (decodeCallback data).1 ≠ "raw" → (decodeCallback data).1 ≠ "search" →
        (handleCallback h cfg uid data).Users = cfg.Users ∧
          (∀ e ∈ (handleCallback h cfg uid data).effects, e.isHandler = false) ∧
          (∀ e ∈ (handleCallback h cfg uid data).effects, e.isTransport = false)) := by
  refine ⟨by decide, by decide, by decide, by decide, by decide, by decide, by decide,
    by decide, ?_, ?_, ?_⟩
  · intro h cfg uid data u res kb hu hraw h1 h2 hr
    rw [handleCallback_raw h cfg uid data u hu hraw, hr]
    exact finishCallback_unknown_action cfg uid "raw" _ _ res kb u hu h1 h2
  · intro h cfg uid data u kw p res kb hu hsearch h1 h2 hsl hr
    rw [handleCallback_search h cfg uid data u hu hsearch, hsl]
    simp only [hr]
    exact finishCallback_unknown_action cfg uid "search" _ _ res kb u hu h1 h2
  · intro h cfg uid data hraw hsearch
    have hl := unknown_callback_sends_nothing h cfg uid data (Or.inl ⟨hraw, hsearch⟩)
    exact ⟨(hl.2.1 ⟨hraw, hsearch⟩).1, (hl.2.1 ⟨hraw, hsearch⟩).2, hl.1⟩

theorem callback_restores_mode (h : Handlers) (cfg : Config) (uid : Int) (data : String)
    (u : User) (hu : cfg.Users uid = some u)
    (hmode : (decodeCallback data).1 = "raw" ∨ (decodeCallback data).1 = "search")
    (hpanic : (handleCallback h cfg uid data).panic = none) :
    (handleCallback h cfg uid data).Users uid
      = some { u with Mode := (decodeCallback data).1 } := by
  rcases hsa : splitArgs data with ⟨mode, args⟩
  rcases hsb : splitArgs args with ⟨action, cmd⟩
  have hdec : decodeCallback data = (mode, action, cmd) := by
    simp [decodeCallback, hsa, hsb]
  rw [hdec] at hmode
  simp only [hdec]
  have hd : data ≠ "" := fun hd => by
    subst hd
    have : splitArgs "" = ("", "") := by decide
    rw [this] at hsa
    have hm := (Prod.mk.inj hsa).1
    have hr : ¬ ("" = "raw") := by decide
    have hs : ¬ ("" = "search") := by decide
    rcases hmode with h1 | h1 <;> rw [← hm] at h1
    · exact hr h1
    · exact hs h1
  have hauth : userIsAuthorized cfg uid = true := by simp [userIsAuthorized, hu]
  unfold handleCallback at hpanic ⊢
  simp only [hauth, Bool.not_true, Bool.false_and, Bool.false_eq_true, if_false, hd, hu,
    hsa, hsb] at hpanic ⊢
  rcases hmode with h1 | h1
  · subst h1
    simp only [if_true] at hpanic ⊢
    exact (finishCallback_restores cfg uid "raw" action _ _ u hu).2 hpanic
  · subst h1
    have hnr : ¬ ("search" = "raw") := by decide
    simp only [hnr, if_false, if_true] at hpanic ⊢
    cases hsl : splitLast cmd with
    | error p => simp [hsl] at hpanic
    | ok r =>
      obtain ⟨kw, p⟩ := r
      simp only [hsl] at hpanic ⊢
      exact (finishCallback_restores cfg uid "search" action _ _ u hu).2 hpanic

/-- C6 at the failing input: the callback `search edit x` has the recognised mode
`search`, and its command has no space, so `splitLast` slices `args[:-1]`: the program
panics before the mode is restored, and the user is still in ping mode. -/
theorem search_callback_without_space_panics :
    decodeCallback "search edit x" = ("search", "edit", "x") ∧
      sampleConfig.Users 7 = some ⟨"user", "ping"⟩ ∧
      splitLast "x" = .error Panic.sliceBounds ∧
      (handleCallback sampleHandlers sampleConfig 7 "search edit x").panic
        = some Panic.sliceBounds ∧
      (handleCallback sampleHandlers sampleConfig 7 "search edit x").Users 7
        = some ⟨"user", "ping"⟩ ∧
      (handleCallback sampleHandlers sampleConfig 7 "search edit x").effects = [] := by
  refine ⟨by decide, by decide, rfl, by decide, by decide, by decide⟩

/-! ### Pagination of the search results -/

/-- C11: for every total page count `T ≥ 1` and current page `p` with `1 ≤ p ≤ T`, the
buttons of the pagination row built by `searchHandler` are, in this order, a first-page
button (target 1) exactly when `p > 2`, a previous button (target `p - 1`) exactly when
`p > 1`, a next button (target `p + 1`) exactly when `p < T` and a last-page button (target
`T`) exactly when `p < T - 1`; with `T = 1` there is no keyboard, with `T > 1` one row. With
`T = 5`: next and last on page 1, all four on page 3, first and previous on page 5. -/
theorem pagination_buttons (kw : String) (p T : Int) (hT : 1 ≤ T) (hp1 : 1 ≤ p)
    (hpT : p ≤ T) :
    (pagination kw p T).flatten =
        (if p > 2 then [("<<", searchCallback kw 1)] else []) ++
        (if p > 1 then [("<", searchCallback kw (p - 1))] else []) ++
        (if p < T then [(">", searchCallback kw (p + 1))] else []) ++
        (if p < T - 1 then [(">>", searchCallback kw T)] else []) ∧
      (T = 1 → pagination kw p T = []) ∧
      (1 < T → (pagination kw p T).length = 1) ∧
      (∀ search tpl result, kw ≠ "" → search kw p = SearchResponse.ok result →
        result.Meta.Pages.Total = T →
        (searchHandler search tpl kw p).2 = pagination kw p T) ∧
      pagination "kw" 1 5 = [[(">", "search edit kw 2"), (">>", "search edit kw 5")]] ∧
      pagination "kw" 3 5 = [[("<<", "search edit kw 1"), ("<", "search edit kw 2"),
        (">", "search edit kw 4"), (">>", "search edit kw 5")]] ∧
      pagination "kw" 5 5 = [[("<<", "search edit kw 1"), ("<", "search edit kw 4")]] ∧
      pagination "kw" 1 1 = [] := by
  refine ⟨?_, ?_, ?_, ?_, by decide, by decide, by decide, by decide⟩
  · unfold pagination genKeyboard
    by_cases h1 : T > 1
    · by_cases h2 : p > 1 <;> by_cases h3 : p > 2 <;> by_cases h4 : p < T <;>
        by_cases h5 : p < T - 1 <;> first | omega | simp [h1, h2, h3, h4, h5]
    · have hT1 : T = 1 := by omega
      subst hT1
      have hp : p = 1 := by omega
      subst hp
      simp
  · intro hT1
    subst hT1
    simp [pagination]
  · intro h1
    unfold pagination genKeyboard
    simp [h1]
  · intro search tpl result hkw hs hres
    simp [searchHandler, hkw, hs, hres]

/-- C11 witness: page 3 of 5. -/
theorem pagination_buttons_witness :
    (pagination "kw" 3 5).flatten =
      [("<<", searchCallback "kw" 1), ("<", searchCallback "kw" 2),
        (">", searchCallback "kw" 4), (">>", searchCallback "kw" 5)] :=
  (pagination_buttons "kw" 3 5 (by decide) (by decide) (by decide)).1

/-! ### Normalisation of IP addresses -/

theorem matches_lit (t s : List Char) : (Regex.lit t).matches s = true ↔ s = t := by
  simp [Regex.matches]

theorem matches_cat (a b : Regex) (s : List Char) :
    (Regex.cat a b).matches s = true
      ↔ ∃ x y, s = x ++ y ∧ a.matches x = true ∧ b.matches y = true := by
  simp only [Regex.matches, List.any_eq_true, List.mem_range, Bool.and_eq_true]
  constructor
  · rintro ⟨i, _, h1, h2⟩
    exact ⟨s.take i, s.drop i, (List.take_append_drop i s).symm, h1, h2⟩
  · rintro ⟨x, y, rfl, h1, h2⟩
    refine ⟨x.length, by simp; omega, ?_, ?_⟩
    · simpa using h1
    · simpa using h2

theorem mem_lang_of_matches (r : Regex) (s : List Char) (h : r.matches s = true) :
    s ∈ r.lang := by
  induction r generalizing s with
  | lit t => simpa [Regex.matches, Regex.lang] using h
  | range lo hi =>
    simp only [Regex.lang, List.mem_map, List.mem_range']
    match s, h with
    | [c], h =>
      simp only [Regex.matches, Bool.and_eq_true, decide_eq_true_eq] at h
      refine ⟨c.toNat, ⟨c.toNat - lo.toNat, by omega, by omega⟩, ?_⟩
      rw [Char.ofNat_toNat]
    | [], h => simp [Regex.matches] at h
    | _ :: _ :: _, h => simp [Regex.matches] at h
  | alt a b iha ihb =>
    simp only [Regex.matches, Bool.or_eq_true] at h
    simp only [Regex.lang, List.mem_append]
    exact h.imp (iha s) (ihb s)
  | cat a b iha ihb =>
    obtain ⟨x, y, rfl, h1, h2⟩ := (matches_cat a b s).1 h
    simp only [Regex.lang, List.mem_flatMap, List.mem_map]
    exact ⟨x, iha x h1, y, ihb y h2, rfl⟩

set_option maxRecDepth 100000 in
theorem octet_lang_numerals : ∀ t ∈ reOctet.lang, t ∈ octetNumerals := by decide

set_option maxRecDepth 100000 in
theorem octet_numerals_match : ∀ t ∈ octetNumerals, reOctet.matches t = true := by decide

set_option maxRecDepth 100000 in
theorem octet_numerals_no_dot : ∀ t ∈ octetNumerals, '.' ∉ t := by decide

theorem reOctet_matches (s : List Char) : reOctet.matches s = isOctet s := by
  rw [Bool.eq_iff_iff]
  simp only [isOctet, decide_eq_true_eq]
  exact ⟨fun h => octet_lang_numerals s (mem_lang_of_matches _ s h), octet_numerals_match s⟩

theorem isOctet_no_dot (s : List Char) (h : isOctet s = true) : '.' ∉ s :=
  octet_numerals_no_dot s (by simpa [isOctet] using h)

theorem reSwitchNet_matches (s : List Char) :
    reSwitchNet.matches s
      = decide (s ∈ ["47".data, "49".data, "57".data, "58".data, "59".data, "60".data]) := by
  rw [Bool.eq_iff_iff]
  simp only [decide_eq_true_eq]
  constructor
  · intro h
    have h1 := mem_lang_of_matches _ s h
    have h2 : ∀ t ∈ reSwitchNet.lang,
        t ∈ ["47".data, "49".data, "57".data, "58".data, "59".data, "60".data] := by decide
    exact h2 s h1
  · have h2 : ∀ t ∈ ["47".data, "49".data, "57".data, "58".data, "59".data, "60".data],
        reSwitchNet.matches t = true := by decide
    exact h2 s

theorem splitOn_of_intercalate (s : List Char) (ls : List (List Char)) (hne : ls ≠ [])
    (hdot : ∀ l ∈ ls, '.' ∉ l) (hs : s = ['.'].intercalate ls) : s.splitOn '.' = ls := by
  subst hs
  exact List.splitOn_intercalate _ '.' hdot hne

theorem reShort_matches (s : List Char) :
    reShort.matches s = ((s.splitOn '.').length == 2 && (s.splitOn '.').all isOctet) := by
  rw [Bool.eq_iff_iff]
  simp only [reShort, matches_cat, matches_lit, reOctet_matches, Bool.and_eq_true,
    beq_iff_eq, List.all_eq_true]
  constructor
  · rintro ⟨a, _, rfl, ha, _, b, rfl, rfl, hb⟩
    have := splitOn_of_intercalate (a ++ (['.'] ++ b)) [a, b] (by simp)
      (by
        intro l hl
        simp only [List.mem_cons, List.mem_singleton, List.not_mem_nil, or_false] at hl
        rcases hl with rfl | rfl
        · exact isOctet_no_dot _ ha
        · exact isOctet_no_dot _ hb)
      (by simp [List.intercalate])
    rw [this]
    simp [ha, hb]
  · rintro ⟨hlen, hall⟩
    match hsp : s.splitOn '.', hlen, hall with
    | [a, b], _, hall =>
      have hs := List.intercalate_splitOn s '.'
      rw [hsp] at hs
      refine ⟨a, _, ?_, hall a (by simp), ['.'], b, rfl, rfl, hall b (by simp)⟩
      rw [← hs]
      simp [List.intercalate]

theorem reFull_matches (s : List Char) :
    reFull.matches s = ((s.splitOn '.').length == 4 && (s.splitOn '.').all isOctet) := by
  rw [Bool.eq_iff_iff]
  simp only [reFull, matches_cat, matches_lit, reOctet_matches, Bool.and_eq_true,
    beq_iff_eq, List.all_eq_true]
  constructor
  · rintro ⟨_, d, rfl, ⟨_, _, rfl, ⟨a, _, rfl, ha, rfl⟩, _, _, rfl, ⟨b, _, rfl, hb, rfl⟩,
      c, _, rfl, hc, rfl⟩, hd⟩
    have := splitOn_of_intercalate
      (a ++ ['.'] ++ (b ++ ['.'] ++ (c ++ ['.'])) ++ d) [a, b, c, d] (by simp)
      (by
        intro l hl
        simp only [List.mem_cons, List.mem_singleton, List.not_mem_nil, or_false] at hl
        rcases hl with rfl | rfl | rfl | rfl
        · exact isOctet_no_dot _ ha
        · exact isOctet_no_dot _ hb
        · exact isOctet_no_dot _ hc
        · exact isOctet_no_dot _ hd)
      (by simp [List.intercalate])
    rw [this]
    simp [ha, hb, hc, hd]
  · rintro ⟨hlen, hall⟩
    match hsp : s.splitOn '.', hlen, hall with
    | [a, b, c, d], _, hall =>
      have hs := List.intercalate_splitOn s '.'
      rw [hsp] at hs
      refine ⟨a ++ ['.'] ++ (b ++ ['.'] ++ (c ++ ['.'])), d, ?_,
        ⟨a ++ ['.'], b ++ ['.'] ++ (c ++ ['.']), rfl, ⟨a, ['.'], rfl, hall a (by simp), rfl⟩,
          b ++ ['.'], c ++ ['.'], rfl, ⟨b, ['.'], rfl, hall b (by simp), rfl⟩,
          c, ['.'], rfl, hall c (by simp), rfl⟩, hall d (by simp)⟩
      rw [← hs]
      simp [List.intercalate]

theorem reSwitch_matches (s : List Char) :
    reSwitch.matches s =
      (match s.splitOn '.' with
        | [a, b, x, y] =>
          a == "192".data && b == "168".data &&
            decide (x ∈ ["47".data, "49".data, "57".data, "58".data, "59".data, "60".data])
            && isOctet y
        | _ => false) := by
  have hnet : reSwitch = .cat (.lit "192.168.".data)
      (.cat reSwitchNet (.cat (.lit ['.']) reOctet)) := rfl
  rw [Bool.eq_iff_iff, hnet]
  simp only [matches_cat, matches_lit, reOctet_matches, reSwitchNet_matches,
    decide_eq_true_eq]
  constructor
  · rintro ⟨_, _, rfl, rfl, x, _, rfl, hx, _, y, rfl, rfl, hy⟩
    have hxdot : '.' ∉ x := by
      have : ∀ t ∈ ["47".data, "49".data, "57".data, "58".data, "59".data, "60".data],
          '.' ∉ t := by decide
      exact this x hx
    have := splitOn_of_intercalate
      ("192.168.".data ++ (x ++ (['.'] ++ y))) ["192".data, "168".data, x, y] (by simp)
      (by
        intro l hl
        simp only [List.mem_cons, List.mem_singleton, List.not_mem_nil, or_false] at hl
        rcases hl with rfl | rfl | rfl | rfl
        · decide
        · decide
        · exact hxdot
        · exact isOctet_no_dot _ hy)
      (by simp [List.intercalate])
    rw [this]
    simp [hx, hy]
  · intro h
    match hsp : s.splitOn '.', h with
    | [a, b, x, y], h =>
      simp only [Bool.and_eq_true, beq_iff_eq, decide_eq_true_eq] at h
      obtain ⟨⟨⟨rfl, rfl⟩, hx⟩, hy⟩ := h
      have hs := List.intercalate_splitOn s '.'
      rw [hsp] at hs
      refine ⟨_, _, ?_, rfl, x, _, rfl, hx, ['.'], y, rfl, rfl, hy⟩
      rw [← hs]
      simp [List.intercalate]

theorem isSwitchIP_isFullIP (e : String) (h : isSwitchIP e = true) : isFullIP e = true := by
  unfold isSwitchIP at h
  unfold isFullIP
  match hsp : e.data.splitOn '.', h with
  | [a, b, x, y], h =>
    simp only [Bool.and_eq_true, beq_iff_eq, decide_eq_true_eq] at h
    obtain ⟨⟨⟨rfl, rfl⟩, hx⟩, hy⟩ := h
    have hx' : isOctet x = true := by
      have : ∀ t ∈ ["47".data, "49".data, "57".data, "58".data, "59".data, "60".data],
          isOctet t = true := by decide
      exact this x hx
    have h1 : isOctet "192".data = true := by decide
    have h2 : isOctet "168".data = true := by decide
    simp [h1, h2, hx', hy]

theorem fullIP_eq_spec (ip : String) (isSwitch : Bool) :
    fullIP ip isSwitch = fullIPSpec ip isSwitch := by
  have hshort : reShort.matches ip.data = isShortIP ip := reShort_matches ip.data
  unfold fullIP fullIPSpec
  rw [hshort]
  generalize (if isShortIP ip = true then "192.168." ++ ip else ip) = e
  have hfull : reFull.matches e.data = isFullIP e := reFull_matches e.data
  have hsw : reSwitch.matches e.data = isSwitchIP e := reSwitch_matches e.data
  simp only [hfull, hsw]
  cases isSwitch
  · simp
  · cases h : isSwitchIP e
    · simp
    · simp [isSwitchIP_isFullIP e h]

theorem not_short_of_expanded (ip : String) (h : isShortIP ip = true) :
    isShortIP ("192.168." ++ ip) = false := by
  unfold isShortIP at h ⊢
  simp only [Bool.and_eq_true, beq_iff_eq, List.all_eq_true] at h
  obtain ⟨hlen, hall⟩ := h
  match hsp : ip.data.splitOn '.', hlen, hall with
  | [a, b], _, hall =>
    have hs := List.intercalate_splitOn ip.data '.'
    rw [hsp] at hs
    have := splitOn_of_intercalate ("192.168." ++ ip).data ["192".data, "168".data, a, b]
      (by simp)
      (by
        intro l hl
        simp only [List.mem_cons, List.mem_singleton, List.not_mem_nil, or_false] at hl
        rcases hl with h | h | h | h
        · rw [h]; decide
        · rw [h]; decide
        · rw [h]; exact isOctet_no_dot _ (hall a (by simp))
        · rw [h]; exact isOctet_no_dot _ (hall b (by simp)))
      (by
        rw [String.data_append, ← hs]
        simp [List.intercalate])
    rw [this]
    simp

/-- C12: `fullIP` returns `e` or the empty string, where `e` is `"192.168." + ip` when `ip`
is exactly two dot-separated decimal octets and `ip` otherwise: it returns `e` when `e` is
four dot-separated decimal octets and, if `isSwitch`, has the form 192.168.X.Y with X one of
47, 49, 57, 58, 59, 60, and the empty string in every other case. So `75` and `300.1` are
invalid, `59.75` as a switch address gives `192.168.59.75`, and the short and the full form
of an address give the same result. -/
theorem fullIP_normalises (ip : String) (isSwitch : Bool) :
    fullIP ip isSwitch =
        (if isFullIP (if isShortIP ip then "192.168." ++ ip else ip) &&
            (!isSwitch || isSwitchIP (if isShortIP ip then "192.168." ++ ip else ip))
          then (if isShortIP ip then "192.168." ++ ip else ip) else "") ∧
      fullIP "75" isSwitch = "" ∧
      fullIP "300.1" isSwitch = "" ∧
      fullIP "59.75" true = "192.168.59.75" ∧
      (isShortIP ip = true → fullIP ("192.168." ++ ip) isSwitch = fullIP ip isSwitch) := by
  refine ⟨fullIP_eq_spec ip isSwitch, ?_, ?_, ?_, ?_⟩
  · cases isSwitch <;> decide
  · cases isSwitch <;> decide
  · decide
  · intro h
    rw [fullIP_eq_spec, fullIP_eq_spec]
    simp [fullIPSpec, h, not_short_of_expanded ip h]


/-! ### Rounding of round-trip times -/

theorem scaleLoop_neg (fuel : Nat) (scale d : Int) (hs : 0 ≤ scale) (hd : d < 0) :
    scaleLoop fuel scale d = none := by
  induction fuel generalizing scale with
  | zero => rfl
  | succ n ih =>
    have h : scale > d := by omega
    simp only [scaleLoop, h, if_true]
    apply ih
    rw [Int.tdiv_eq_ediv hs (by norm_num)]
    omega

theorem tdiv_pow_ten (k : Nat) : Int.tdiv ((10 : Int) ^ (k + 1)) 10 = 10 ^ k := by
  rw [Int.tdiv_eq_ediv (by positivity) (by norm_num), pow_succ]
  exact Int.mul_ediv_cancel _ (by norm_num)

theorem scaleLoop_pow (j : Nat) (d : Int) (h1 : (10 : Int) ^ j ≤ d) (h2 : d < 10 ^ (j + 1))
    (n : Nat) (fuel : Nat) (hf : n < fuel) :
    scaleLoop fuel (10 ^ (j + n)) d = some (10 ^ j) := by
  induction n generalizing fuel with
  | zero =>
    obtain ⟨f, rfl⟩ := Nat.exists_eq_succ_of_ne_zero (Nat.ne_of_gt hf)
    have h : ¬ ((10 : Int) ^ (j + 0) > d) := by simpa using h1
    simp only [scaleLoop, h, if_false]
    rfl
  | succ n ih =>
    obtain ⟨f, rfl⟩ := Nat.exists_eq_succ_of_ne_zero (Nat.ne_of_gt (Nat.lt_of_le_of_lt (Nat.zero_le _) hf))
    have hle : (10 : Int) ^ (j + 1) ≤ 10 ^ (j + (n + 1)) :=
      pow_le_pow_right₀ (by norm_num) (by omega)
    have h : (10 : Int) ^ (j + (n + 1)) > d := lt_of_lt_of_le h2 hle
    simp only [scaleLoop, h, if_true]
    rw [← Nat.add_assoc, tdiv_pow_ten]
    exact ih f (by omega)
theorem wrap64_id (x : Int) (h0 : 0 ≤ x) (h1 : x < 2 ^ 63) : wrap64 x = x := by
  unfold wrap64
  omega

theorem durationRound_nonneg (d m : Int) (hd : 0 ≤ d) (hm : 0 < m) (hb : d + m < 2 ^ 63) :
    (∃ q : Int, durationRound d m = q * m) ∧
      2 * (d - durationRound d m) < m ∧ 2 * (durationRound d m - d) ≤ m := by
  have hr0 : 0 ≤ d % m := Int.emod_nonneg d (by omega)
  have hr1 : d % m < m := Int.emod_lt_of_pos d hm
  have hdiv : m * (d / m) + d % m = d := Int.ediv_add_emod d m
  have hmod : Int.tmod d m = d % m := Int.tmod_eq_emod hd (by omega)
  unfold durationRound
  simp only [hmod, show ¬ (m ≤ 0) by omega, show ¬ (d < 0) by omega, if_false]
  by_cases hh : d % m + d % m < m
  · simp only [hh, if_true]
    refine ⟨⟨d / m, ?_⟩, by omega, by omega⟩
    rw [Int.mul_comm]
    omega
  · have hw : wrap64 (d + m - d % m) = d + m - d % m := wrap64_id _ (by omega) (by omega)
    simp only [hh, if_false, hw, show d + m - d % m > d by omega, if_true]
    refine ⟨⟨d / m + 1, ?_⟩, by omega, by omega⟩
    rw [Int.add_mul, Int.mul_comm (d / m) m]
    omega

theorem scaleLoop_pos (d : Int) (fuel : Nat) (hpos : 0 < d) (hlt : d < 100 * Second)
    (hfuel : 12 ≤ fuel) :
    ∃ j : Nat, j ≤ 10 ∧ scaleLoop fuel (100 * Second) d = some (10 ^ j) ∧
      (10 : Int) ^ j ≤ d ∧ d < 10 ^ (j + 1) := by
  obtain ⟨n, rfl⟩ := Int.eq_ofNat_of_zero_le (le_of_lt hpos)
  have hn0 : n ≠ 0 := by
    rintro rfl
    simp at hpos
  have hsec : (100 : Int) * Second = 10 ^ 11 := by norm_num [Second]
  have hn11 : n < 10 ^ 11 := by
    rw [hsec] at hlt
    exact_mod_cast hlt
  have hj1 : 10 ^ Nat.log 10 n ≤ n := Nat.pow_log_le_self 10 hn0
  have hj2 : n < 10 ^ (Nat.log 10 n + 1) := Nat.lt_pow_succ_log_self (by norm_num) n
  have hj : Nat.log 10 n ≤ 10 := by
    by_contra hcon
    have h11 : 11 ≤ Nat.log 10 n := by omega
    have : 10 ^ 11 ≤ 10 ^ Nat.log 10 n := Nat.pow_le_pow_right (by norm_num) h11
    omega
  generalize Nat.log 10 n = j at hj1 hj2 hj
  have h1 : (10 : Int) ^ j ≤ (n : Int) := by exact_mod_cast hj1
  have h2 : (n : Int) < 10 ^ (j + 1) := by exact_mod_cast hj2
  have hloop : scaleLoop fuel (100 * Second) n = some (10 ^ j) := by
    have := scaleLoop_pow j n h1 h2 (11 - j) fuel (by omega)
    rw [show j + (11 - j) = 11 by omega] at this
    rw [hsec]
    exact this
  exact ⟨j, hj, hloop, h1, h2⟩

/-- C13: for every duration `d` with `0 < d < 100 s`, in nanoseconds, the loop of `fmtRTT`
ends (within 12 tests) with the scale `s = 10 ^ j` ns, `j ≤ 10`, the largest of the scales
10 s, 1 s, ..., 1 ns that is at most `d`, and `fmtRTT` prints the duration `R` that is `d`
rounded to the nearest multiple of `s / 100`, halfway values upwards: `100 * R` is a multiple
of `s`, `d - R < s / 200` and `R - d ≤ s / 200`; so `R` differs from `d` by at most
`d / 200`. 2.345 s gives 2.35 s, a multiple of 10 ms, and 45.678 µs gives 45.7 µs, a multiple
of 100 ns. -/
theorem fmtRTT_rounds (str : Int → String) (d : Int) (fuel : Nat) (hpos : 0 < d)
    (hlt : d < 100 * Second) (hfuel : 12 ≤ fuel) :
    (∃ (j : Nat) (R : Int), j ≤ 10 ∧
      scaleLoop fuel (100 * Second) d = some (10 ^ j) ∧
      (10 : Int) ^ j ≤ d ∧ d < 10 ^ (j + 1) ∧
      fmtRTTRounded fuel d = some R ∧
      fmtRTT str fuel d = some (str R) ∧
      (∃ q : Int, 100 * R = q * 10 ^ j) ∧
      200 * (d - R) < 10 ^ j ∧ 200 * (R - d) ≤ 10 ^ j ∧
      200 * |R - d| ≤ d) ∧
    fmtRTTRounded 12 2345000000 = some 2350000000 ∧
    scaleLoop 12 (100 * Second) 2345000000 = some (10 ^ 9) ∧
    fmtRTTRounded 12 45000 = some 45000 ∧
    fmtRTTRounded 12 45678 = some 45700 ∧
    scaleLoop 12 (100 * Second) 45678 = some (10 ^ 4) := by
  refine ⟨?_, by decide, by decide, by decide, by decide, by decide⟩
  obtain ⟨j, hj, hloop, h1, h2⟩ := scaleLoop_pos d fuel hpos hlt hfuel
  obtain ⟨n, rfl⟩ := Int.eq_ofNat_of_zero_le (le_of_lt hpos)
  have hsec : (100 : Int) * Second = 10 ^ 11 := by norm_num [Second]
  have hn11 : n < 10 ^ 11 := by
    rw [hsec] at hlt
    exact_mod_cast hlt
  have hround : fmtRTTRounded fuel n
      = some (durationRound n (Int.tdiv (10 ^ j) 100)) := by
    simp [fmtRTTRounded, hloop]
  have hjpos : (0 : Int) < 10 ^ j := by positivity
  refine ⟨j, durationRound n (Int.tdiv (10 ^ j) 100), hj, hloop, h1, h2, hround,
    by simp [fmtRTT, hround], ?_⟩
  have key : (∃ q : Int, 100 * durationRound n (Int.tdiv (10 ^ j) 100) = q * 10 ^ j) ∧
      200 * ((n : Int) - durationRound n (Int.tdiv (10 ^ j) 100)) < 10 ^ j ∧
      200 * (durationRound n (Int.tdiv (10 ^ j) 100) - n) ≤ 10 ^ j := by
    match j, hj, h1, hjpos with
    | 0, _, _, _ =>
      have : durationRound n (Int.tdiv (10 ^ 0) 100) = n := by
        simp [durationRound, Int.tdiv]
      rw [this]
      exact ⟨⟨100 * n, by ring⟩, by norm_num, by norm_num⟩
    | 1, _, _, _ =>
      have : durationRound n (Int.tdiv (10 ^ 1) 100) = n := by
        simp [durationRound, Int.tdiv]
      rw [this]
      exact ⟨⟨10 * n, by ring⟩, by norm_num, by norm_num⟩
    | i + 2, hj, h1, _ =>
      have hm : Int.tdiv ((10 : Int) ^ (i + 2)) 100 = 10 ^ i := by
        rw [Int.tdiv_eq_ediv (by positivity) (by norm_num), pow_add]
        exact Int.mul_ediv_cancel _ (by norm_num)
      have hs : (10 : Int) ^ (i + 2) = 100 * 10 ^ i := by ring
      have hmpos : (0 : Int) < 10 ^ i := by positivity
      have hmle : (10 : Int) ^ i ≤ 10 ^ 8 := pow_le_pow_right₀ (by norm_num) (by omega)
      have hn : (n : Int) < 10 ^ 11 := by exact_mod_cast hn11
      rw [hm, hs]
      obtain ⟨⟨q, hq⟩, ha, hb⟩ := durationRound_nonneg n (10 ^ i) (by omega) hmpos
        (by norm_num at hmle hn ⊢; omega)
      refine ⟨⟨q, ?_⟩, by omega, by omega⟩
      rw [hq]
      ring
  obtain ⟨hq, ha, hb⟩ := key
  refine ⟨hq, ha, hb, ?_⟩
  rcases abs_cases (durationRound n (Int.tdiv (10 ^ j) 100) - (n : Int)) with ⟨he, _⟩ | ⟨he, _⟩
  · rw [he]; omega
  · rw [he]; omega

/-- C13 witness: 2.345 s is printed as 2.35 s. -/
theorem fmtRTT_rounds_witness :
    (0 : Int) < 2345000000 ∧ (2345000000 : Int) < 100 * Second ∧
      fmtRTTRounded 12 2345000000 = some 2350000000 :=
  ⟨by decide, by decide,
    (fmtRTT_rounds toString 2345000000 12 (by decide) (by decide) (by decide)).2.1⟩

/-- C15 at the failing input: for a negative duration the loop of `fmtRTT` never ends,
whatever the number of tests allowed: the scale reaches 0 and `0 > d` stays true. For a
duration that is not negative the loop ends within 13 tests. -/
theorem scaleLoop_termination :
    (∀ d : Int, 0 ≤ d → ∀ fuel, 13 ≤ fuel → ∃ s, scaleLoop fuel (100 * Second) d = some s) ∧
      (∀ d : Int, d < 0 → ∀ fuel, scaleLoop fuel (100 * Second) d = none) ∧
      scaleLoop 1000 (100 * Second) (-1) = none := by
  refine ⟨?_, ?_, ?_⟩
  · intro d hd fuel hf
    by_cases h0 : d = 0
    · subst h0
      obtain ⟨f, rfl⟩ : ∃ f, fuel = f + 13 := ⟨fuel - 13, by omega⟩
      exact ⟨0, by simp [scaleLoop, Second, Int.tdiv]⟩
    · by_cases hbig : d < 100 * Second
      · obtain ⟨j, _, hloop, _, _⟩ := scaleLoop_pos d fuel (by omega) hbig (by omega)
        exact ⟨_, hloop⟩
      · obtain ⟨f, rfl⟩ : ∃ f, fuel = f + 1 := ⟨fuel - 1, by omega⟩
        exact ⟨100 * Second, by simp [scaleLoop, hbig]⟩
  · intro d hd fuel
    exact scaleLoop_neg fuel _ d (by norm_num [Second]) hd
  · exact scaleLoop_neg 1000 _ (-1) (by norm_num [Second]) (by norm_num)

/-! ### Splitting off the last argument -/

theorem findIdx?_split {α : Type} (p : α → Bool) (l : List α) (k : Nat)
    (h : l.findIdx? p = some k) :
    ∃ a x b, l = a ++ x :: b ∧ a.length = k ∧ p x = true ∧ ∀ y ∈ a, p y = false := by
  induction l generalizing k with
  | nil => simp at h
  | cons c l ih =>
    rw [List.findIdx?_cons] at h
    by_cases hc : p c = true
    · simp [hc] at h
      subst h
      exact ⟨[], c, l, rfl, rfl, hc, by simp⟩
    · simp [hc] at h
      obtain ⟨j, hj, rfl⟩ := h
      obtain ⟨a, x, b, hl, ha, hx, hall⟩ := ih j hj
      refine ⟨c :: a, x, b, by simp [hl], by simp [ha], hx, ?_⟩
      intro y hy
      rcases List.mem_cons.1 hy with rfl | hy
      · simpa using hc
      · exact hall y hy

theorem lastIndexSpace_none (s : List Char) (h : ' ' ∉ s) : lastIndexSpace s = -1 := by
  have : s.reverse.findIdx? (fun c => c == ' ') = none := by
    rw [List.findIdx?_eq_none_iff]
    intro x hx
    have hx2 : x ∈ s := List.mem_reverse.1 hx
    have : x ≠ ' ' := fun e => h (e ▸ hx2)
    simpa using this
  simp [lastIndexSpace, this]

theorem lastIndexSpace_some (s : List Char) (h : ' ' ∈ s) :
    ∃ before last : List Char, s = before ++ ' ' :: last ∧ ' ' ∉ last ∧
      lastIndexSpace s = before.length := by
  have hex : ∃ x, x ∈ s.reverse ∧ (fun c => c == ' ') x = true :=
    ⟨' ', List.mem_reverse.2 h, by simp⟩
  obtain ⟨k, hk⟩ : ∃ k, s.reverse.findIdx? (fun c => c == ' ') = some k := by
    cases hf : s.reverse.findIdx? (fun c => c == ' ') with
    | some k => exact ⟨k, rfl⟩
    | none =>
      rw [List.findIdx?_eq_none_iff] at hf
      have := hf ' ' (List.mem_reverse.2 h)
      simp at this
  obtain ⟨a, x, b, hl, ha, hx, hall⟩ := findIdx?_split _ _ k hk
  have hx2 : x = ' ' := by simpa using hx
  subst hx2
  have hs : s = b.reverse ++ ' ' :: a.reverse := by
    have := congrArg List.reverse hl
    simpa using this
  refine ⟨b.reverse, a.reverse, hs, ?_, ?_⟩
  · intro hmem
    have := hall ' ' (List.mem_reverse.1 hmem)
    simp at this
  · simp only [lastIndexSpace, hk]
    rw [hs]
    simp
    omega

/-- C16 at the failing input: `splitLast` fails with slice bounds out of range on every
string without a space, the empty string among them, so the callbacks `search send` (empty
command) and `search edit x` end the program; on a string with a space it returns
`(before, last)` with `before + " " + last == args` and no space in `last`. Same defect as
in C6: the case `i == -1` of `strings.LastIndex` is missed. -/
theorem splitLast_slice_bounds :
    (∀ args : String, ' ' ∉ args.data → splitLast args = .error Panic.sliceBounds) ∧
      (∀ args : String, ' ' ∈ args.data → ∃ before last : String,
        splitLast args = .ok (before, last) ∧ before ++ " " ++ last = args ∧
          ' ' ∉ last.data) ∧
      splitLast "" = .error Panic.sliceBounds ∧
      splitLast "kw" = .error Panic.sliceBounds ∧
      splitLast "two words 2" = .ok ("two words", "2") ∧
      decodeCallback "search send" = ("search", "send", "") ∧
      (handleCallback sampleHandlers sampleConfig 7 "search send").panic
        = some Panic.sliceBounds ∧
      (handleCallback sampleHandlers sampleConfig 7 "search send kw").panic
        = some Panic.sliceBounds ∧
      (handleCallback sampleHandlers sampleConfig 7 "search send kw 2").panic = none := by
  refine ⟨?_, ?_, rfl, rfl, rfl, by decide, by decide, by decide, by decide⟩
  · intro args h
    simp [splitLast, lastIndexSpace_none _ h]
  · intro args h
    obtain ⟨before, last, hs, hl, hi⟩ := lastIndexSpace_some _ h
    refine ⟨⟨before⟩, ⟨last⟩, ?_, ?_, hl⟩
    · simp only [splitLast, hi]
      simp [hs]
    · apply String.ext
      simp [hs]

/-! ### The first port entry -/

theorem aclAndMulticast_not_index (api : API) (port0 : Int) (linkUp : Bool) (s : Run) :
    (aclAndMulticast api port0 linkUp s).result ≠ .error Panic.indexOutOfRange := by
  by_cases hmc : api.multicast = .ok none
  · unfold aclAndMulticast
    simp [hmc, Run.panic]
  · obtain ⟨r, hr⟩ := aclAndMulticast_ok api port0 linkUp s hmc
    rw [hr]
    simp

theorem fullReport_cons_not_index (api : API) (p0 : Port) (rest : List Port) (linkUp : Bool)
    (s : Run) : (fullReport api (p0 :: rest) linkUp s).result ≠ .error Panic.indexOutOfRange := by
  unfold fullReport
  cases hp : api.portList with
  | error e =>
    by_cases hin : intInList p0.Port [] = true
    · simpa [hin] using aclAndMulticast_not_index api _ _ _
    · simp [hin, Run.done]
  | ok o =>
    cases o with
    | none => simp [Run.panic]
    | some l =>
      by_cases hin : intInList p0.Port l = true
      · simpa [hin] using aclAndMulticast_not_index api _ _ _
      · simp [hin, Run.done]

theorem fullReport_nil (api : API) (linkUp : Bool) (s : Run) (hpl : api.portList ≠ .ok none) :
    (fullReport api [] linkUp s).result = .error Panic.indexOutOfRange := by
  unfold fullReport
  cases hp : api.portList with
  | error e => simp [Run.panic]
  | ok o =>
    cases o with
    | none => exact absurd hp hpl
    | some l => simp [Run.panic]

/-- C17 at the failing input: when the port-state fetch succeeds with an empty port list
and the style is full, `portSummary` reads `ports[0]` and panics with an index out of
range, after the port-list request (unless the type assertion on that response panicked
first). With a port list that is not empty no run ends in an index out of range. -/
theorem empty_port_list_index_out_of_range :
    (∀ (api : API) (now : String), api.ports = .ok [] → api.portList ≠ .ok none →
        (portSummary api "full" now).result = .error Panic.indexOutOfRange) ∧
      (∀ (api : API) (style now : String) (p0 : Port) (rest : List Port),
        api.ports = .ok (p0 :: rest) →
        (portSummary api style now).result ≠ .error Panic.indexOutOfRange) ∧
      (portSummary { sampleAPI with ports := .ok [] } "full" "2022-01-01 00:00:00").result
        = .error Panic.indexOutOfRange ∧
      (portSummary { sampleAPI with ports := .ok [] } "full" "2022-01-01 00:00:00").requests
        = [Request.ports, .bandwidth, .counters, .vlan, .portList] ∧
      (portSummary { sampleAPI with ports := .ok [] } "short" "2022-01-01 00:00:00").result
        = .ok [Piece.ports [], .bandwidth ⟨0, 0⟩, .counters ⟨10, 20, 1, 2, [], []⟩,
            .updated "2022-01-01 00:00:00"] := by
  refine ⟨?_, ?_, rfl, rfl, rfl⟩
  · intro api now hports hpl
    rw [portSummary_of_ports_ok api "full" now [] hports]
    simp [fullReport_nil api _ _ hpl, Except.map]
  · intro api style now p0 rest hports
    rw [portSummary_of_ports_ok api style now _ hports]
    by_cases hs : style = "full"
    · have := fullReport_cons_not_index api p0 rest ((p0 :: rest).any (fun p => p.Link))
        { requests := [], res := [] }
      simp only [hs, if_true]
      cases hr : (fullReport api (p0 :: rest) ((p0 :: rest).any (fun p => p.Link))
        { requests := [], res := [] }).result with
      | error p =>
        rw [hr] at this
        simp only [Except.map]
        intro h
        exact this (by rw [Except.error.inj h])
      | ok r => simp [Except.map]
    · simp [hs, Run.done, Except.map]

/-! ### Empty texts -/

theorem isTransport_of_isHandler (e : Effect) (h : e.isHandler = true) :
    e.isTransport = false := by
  cases e <;> simp [Effect.isHandler] at h <;> rfl

theorem msgProcessing_empty_text (h : MessageHandlers) (cfg : Config) (uid : Int)
    (msg : String) (kb : Keyboard)
    (hr : (msgProcessing h cfg uid msg).reply = .ok ("", kb)) :
    ∀ e ∈ (msgProcessing h cfg uid msg).effects, e.isTransport = false := by
  unfold msgProcessing at hr ⊢
  cases hu : cfg.Users uid with
  | none => simp
  | some u =>
    simp only [hu] at hr ⊢
    by_cases h1 : u.Mode = "admin"
    · simp only [h1, if_true]
      cases ha : h.adminHandler cfg msg <;> simp [Effect.isTransport]
    · by_cases h2 : u.Mode = "report"
      · by_cases h3 : msg = ""
        · simp [h1, h2, h3]
        · exfalso
          simp only [h1, h2, h3, if_true, if_false] at hr
          cases hff : h.forwardFails
          · simp only [hff] at hr
            exact absurd (Prod.mk.inj (Except.ok.inj hr)).1 (by decide)
          · simp only [hff] at hr
            exact absurd (Prod.mk.inj (Except.ok.inj hr)).1 (by decide)
      · by_cases h3 : u.Mode = "search"
        · simp [h1, h2, h3, Effect.isTransport]
        · by_cases h4 : u.Mode = "ping"
          · simp [h1, h2, h3, h4, textReply, Effect.isTransport]
          · simp [h1, h2, h3, h4, Effect.isTransport]

theorem processMessage_empty_text (h : MessageHandlers) (cfg : Config) (uid : Int)
    (m : Message) (kb : Keyboard)
    (hr : (processMessage h cfg uid m).reply = .ok ("", kb)) :
    ∀ e ∈ (processMessage h cfg uid m).effects, e.isTransport = false := by
  cases hc : cmdProcessing cfg uid m.Command with
  | inl res =>
    simp only [processMessage, hc]
    simp
  | inr o =>
    cases o with
    | none =>
      simp only [processMessage, hc] at hr ⊢
      exact msgProcessing_empty_text h _ uid _ kb hr
    | some mode =>
      simp only [processMessage, hc] at hr ⊢
      exact msgProcessing_empty_text h _ uid _ kb hr

theorem handleMessage_empty_text (h : MessageHandlers) (cfg : Config) (uid : Int)
    (m : Message) (kb : Keyboard)
    (hr : (processMessage h cfg uid m).reply = .ok ("", kb)) :
    ∀ e ∈ (handleMessage h cfg uid m).effects, e.isTransport = false := by
  have h1 := processMessage_empty_text h cfg uid m kb hr
  unfold handleMessage
  split_ifs
  · simp [Effect.isTransport]
  · simp
  · cases hu : cfg.Users uid with
    | none => simp
    | some u =>
      simp only [hr]
      simpa [sendReply] using h1

/-- C14 at the failing input: the callback `search edit kw 2`, fired when the search API
answers with a response that cannot be decoded, makes `searchHandler` return an empty text,
and the callback branch edits the message with that empty text (`search send kw 2` sends
it): the branch has no test of `res`. The message branch has the test: a message whose
text at the label `SEND` is empty makes no transport call. -/
theorem callback_sends_empty_text :
    searchHandler (fun _ _ => SearchResponse.undecodable) (fun _ => "found") "kw" 2
        = ("", []) ∧
      (handleCallback silentHandlers.toHandlers sampleConfig 7 "search edit kw 2").effects
        = [Effect.searchHandler "kw" 2, Effect.editText "", Effect.callbackDone] ∧
      (handleCallback silentHandlers.toHandlers sampleConfig 7 "search send kw 2").effects
        = [Effect.searchHandler "kw" 2, Effect.sendTo 7 "", Effect.callbackDone] ∧
      (∀ (cfg : Config) (uid : Int) (mode : String) (ran : Effect) (kb : Keyboard),
        kb ≠ [] →
        (finishCallback cfg uid mode "send" ran (.ok ("", []))).effects
            = [ran, Effect.sendTo uid "", Effect.callbackDone] ∧
          (finishCallback cfg uid mode "send" ran (.ok ("", kb))).effects
            = [ran, Effect.sendMessage uid "" kb, Effect.callbackDone] ∧
          (finishCallback cfg uid mode "edit" ran (.ok ("", []))).effects
            = [ran, Effect.editText "", Effect.callbackDone] ∧
          (finishCallback cfg uid mode "edit" ran (.ok ("", kb))).effects
            = [ran, Effect.editTextAndKeyboard "" kb, Effect.callbackDone]) ∧
      (handleMessage silentHandlers (sampleConfigIn "search") 7 ⟨"kw", "", ""⟩).effects
        = [Effect.searchHandler "kw" 1] ∧
      (∀ (h : MessageHandlers) (cfg : Config) (uid : Int) (m : Message) (kb : Keyboard),
        (processMessage h cfg uid m).reply = .ok ("", kb) →
        ∀ e ∈ (handleMessage h cfg uid m).effects, e.isTransport = false) := by
  refine ⟨rfl, by decide, by decide, ?_, by decide, handleMessage_empty_text⟩
  intro cfg uid mode ran kb hkb
  have hlen : kb.length > 0 := List.length_pos.2 hkb
  have hne : ¬ ("edit" = "send") := by decide
  simp [finishCallback, hlen, hne]

/-- The admin does reach the admin mode with `/admin`, and `adminHandler` is run. -/
theorem admin_reaches_admin_mode :
    modeOf (handleMessage silentHandlers sampleConfig 1 ⟨"/admin list", "admin", "list"⟩).cfg 1
        = some "admin" ∧
      (handleMessage silentHandlers sampleConfig 1 ⟨"/admin list", "admin", "list"⟩).effects
        = [Effect.adminHandler "list"] := by
  refine ⟨by decide, by decide⟩

/-! ### Message updates -/

theorem modeOf_setMode (cfg : Config) (uid : Int) (mode : String) :
    modeOf { cfg with Users := setMode cfg.Users uid mode } uid
      = (cfg.Users uid).map (fun _ => mode) := by
  cases hu : cfg.Users uid <;> simp [modeOf, setMode, hu]

theorem modeOf_setMode_ne (cfg : Config) (uid : Int) (mode : String) (h : mode ≠ "admin") :
    modeOf { cfg with Users := setMode cfg.Users uid mode } uid ≠ some "admin" := by
  rw [modeOf_setMode]
  cases cfg.Users uid <;> simp [h]

theorem cmdProcessing_mode (cfg : Config) (uid : Int) (cmd mode : String)
    (h : cmdProcessing cfg uid cmd = .inr (some mode)) :
    mode = cmd ∧ (mode = "admin" → uid = cfg.Admin) := by
  unfold cmdProcessing at h
  split_ifs at h with h1 h2 h3 h4 h5 h6 h7 h8 h9 <;>
    simp only [Sum.inr.injEq, Option.some.injEq, reduceCtorEq] at h
  all_goals subst h
  · exact ⟨h3.symm, fun _ => h4⟩
  · exact ⟨h5.symm, fun he => absurd he (by decide)⟩
  · exact ⟨h6.symm, fun he => absurd he (by decide)⟩
  · exact ⟨h7.symm, fun he => absurd he (by decide)⟩
  · exact ⟨h8.symm, fun he => absurd he (by decide)⟩

theorem msgProcessing_not_admin (h : MessageHandlers) (cfg : Config) (uid : Int)
    (msg : String) (hm : modeOf cfg uid ≠ some "admin") :
    (msgProcessing h cfg uid msg).cfg = cfg ∧
      ∀ e ∈ (msgProcessing h cfg uid msg).effects, e.isAdminHandler = false := by
  unfold msgProcessing
  cases hu : cfg.Users uid with
  | none => simp
  | some u =>
    have hne : ¬ u.Mode = "admin" := by
      intro he
      apply hm
      simp [modeOf, hu, he]
    simp only [hne, if_false]
    split_ifs <;> simp [textReply, Effect.isAdminHandler]

theorem processMessage_not_admin (h : MessageHandlers) (cfg : Config) (uid : Int)
    (m : Message) (ha : uid ≠ cfg.Admin) (hm : modeOf cfg uid ≠ some "admin") :
    (processMessage h cfg uid m).cfg.Admin = cfg.Admin ∧
      modeOf (processMessage h cfg uid m).cfg uid ≠ some "admin" ∧
      ∀ e ∈ (processMessage h cfg uid m).effects, e.isAdminHandler = false := by
  cases hc : cmdProcessing cfg uid m.Command with
  | inl res =>
    simp only [processMessage, hc]
    simpa using hm
  | inr o =>
    cases o with
    | none =>
      obtain ⟨h1, h2⟩ := msgProcessing_not_admin h cfg uid
        (if m.Command ≠ "" then m.CommandArguments else m.Text) hm
      simp only [processMessage, hc]
      rw [h1]
      exact ⟨rfl, hm, h2⟩
    | some mode =>
      obtain ⟨_, hmode⟩ := cmdProcessing_mode cfg uid m.Command mode hc
      have hne : mode ≠ "admin" := fun he => ha (hmode he)
      have hm2 := modeOf_setMode_ne cfg uid mode hne
      obtain ⟨h1, h2⟩ := msgProcessing_not_admin h
        { cfg with Users := setMode cfg.Users uid mode } uid
        (if m.Command ≠ "" then m.CommandArguments else m.Text) hm2
      simp only [processMessage, hc]
      rw [h1]
      exact ⟨rfl, hm2, h2⟩

theorem sendReply_not_admin (uid : Int) (res : String) (kb : Keyboard) :
    ∀ e ∈ sendReply uid res kb, e.isAdminHandler = false := by
  unfold sendReply
  split_ifs <;> simp [Effect.isAdminHandler]

theorem handleMessage_not_admin (h : MessageHandlers) (cfg : Config) (uid : Int)
    (m : Message) (ha : uid ≠ cfg.Admin) (hm : modeOf cfg uid ≠ some "admin") :
    (handleMessage h cfg uid m).cfg.Admin = cfg.Admin ∧
      modeOf (handleMessage h cfg uid m).cfg uid ≠ some "admin" ∧
      ∀ e ∈ (handleMessage h cfg uid m).effects, e.isAdminHandler = false := by
  obtain ⟨h1, h2, h3⟩ := processMessage_not_admin h cfg uid m ha hm
  unfold handleMessage
  split_ifs
  · simpa [Effect.isAdminHandler] using hm
  · simpa using hm
  · cases hu : cfg.Users uid with
    | none => simpa using hm
    | some u =>
      simp only
      cases hr : (processMessage h cfg uid m).reply with
      | error p => exact ⟨h1, h2, h3⟩
      | ok r =>
        obtain ⟨res, kb⟩ := r
        refine ⟨h1, h2, ?_⟩
        intro e he
        rcases List.mem_append.1 he with he | he
        · exact h3 e he
        · exact sendReply_not_admin uid res kb e he

theorem finishCallback_not_admin (cfg : Config) (uid : Int) (mode action : String)
    (ran : Effect) (reply : Reply) (hmode : mode ≠ "admin")
    (hran : ran.isAdminHandler = false) (hm : modeOf cfg uid ≠ some "admin") :
    modeOf { cfg with Users := (finishCallback cfg uid mode action ran reply).Users } uid
        ≠ some "admin" ∧
      ∀ e ∈ (finishCallback cfg uid mode action ran reply).effects,
        e.isAdminHandler = false := by
  unfold finishCallback
  cases reply with
  | error p => simpa [hran] using hm
  | ok r =>
    obtain ⟨res, kb⟩ := r
    refine ⟨modeOf_setMode_ne cfg uid mode hmode, ?_⟩
    intro e he
    rcases List.mem_append.1 he with he | he
    · rcases List.mem_append.1 he with he | he
      · rw [List.mem_singleton.1 he]
        exact hran
      · split_ifs at he <;> simp at he <;> subst he <;> rfl
    · rw [List.mem_singleton.1 he]
      rfl

theorem handleCallback_not_admin (h : Handlers) (cfg : Config) (uid : Int) (data : String)
    (hm : modeOf cfg uid ≠ some "admin") :
    modeOf { cfg with Users := (handleCallback h cfg uid data).Users } uid ≠ some "admin" ∧
      ∀ e ∈ (handleCallback h cfg uid data).effects, e.isAdminHandler = false := by
  unfold handleCallback
  split_ifs with h1 h2
  · simpa using hm
  · simpa using hm
  · cases hu : cfg.Users uid with
    | none => simpa using hm
    | some u =>
      simp only
      split_ifs with h3 h4
      · exact finishCallback_not_admin cfg uid _ _ _ _ (by rw [h3]; decide) rfl hm
      · cases hs : splitLast (splitArgs (splitArgs data).2).2 with
        | error p => simpa using hm
        | ok r =>
          obtain ⟨kw, p⟩ := r
          exact finishCallback_not_admin cfg uid _ _ _ _ (by rw [h4]; decide) rfl hm
      · simpa [Effect.isAdminHandler] using hm

theorem handleUpdate_not_admin (h : MessageHandlers) (cfg : Config) (uid : Int) (u : Update)
    (ha : uid ≠ cfg.Admin) (hm : modeOf cfg uid ≠ some "admin") :
    (handleUpdate h cfg uid u).cfg.Admin = cfg.Admin ∧
      modeOf (handleUpdate h cfg uid u).cfg uid ≠ some "admin" ∧
      ∀ e ∈ (handleUpdate h cfg uid u).effects, e.isAdminHandler = false := by
  cases u with
  | message m => exact handleMessage_not_admin h cfg uid m ha hm
  | callback data =>
    obtain ⟨h1, h2⟩ := handleCallback_not_admin h.toHandlers cfg uid data hm
    exact ⟨rfl, h1, h2⟩

theorem runUpdates_not_admin (uid : Int) (us : List (MessageHandlers × Update)) (s : Step)
    (ha : uid ≠ s.cfg.Admin) (hm : modeOf s.cfg uid ≠ some "admin")
    (he : ∀ e ∈ s.effects, e.isAdminHandler = false) :
    (runUpdates uid s us).cfg.Admin = s.cfg.Admin ∧
      modeOf (runUpdates uid s us).cfg uid ≠ some "admin" ∧
      ∀ e ∈ (runUpdates uid s us).effects, e.isAdminHandler = false := by
  induction us generalizing s with
  | nil => exact ⟨rfl, hm, he⟩
  | cons hu rest ih =>
    obtain ⟨h, u⟩ := hu
    unfold runUpdates
    cases hp : s.panic with
    | some p => exact ⟨rfl, hm, he⟩
    | none =>
      obtain ⟨h1, h2, h3⟩ := handleUpdate_not_admin h s.cfg uid u ha hm
      simp only
      have := ih ⟨(handleUpdate h s.cfg uid u).cfg,
        s.effects ++ (handleUpdate h s.cfg uid u).effects,
        (handleUpdate h s.cfg uid u).panic⟩ (by rw [h1]; exact ha) h2
        (by
          intro e hmem
          rcases List.mem_append.1 hmem with hmem | hmem
          · exact he e hmem
          · exact h3 e hmem)
      exact ⟨this.1.trans h1, this.2.1, this.2.2⟩

/-- C18: for every user whose id differs from the admin id and whose session mode is not
admin, after every sequence of messages (with any command, `/admin` too) and callback
firings (with any data) from that user, whatever the handlers answer, the session mode is
still not admin, `adminHandler` has not been run, and the admin id is unchanged. -/
theorem admin_mode_unreachable (uid : Int) (cfg : Config)
    (us : List (MessageHandlers × Update)) (ha : uid ≠ cfg.Admin)
    (hm : modeOf cfg uid ≠ some "admin") :
    modeOf (runUpdates uid ⟨cfg, [], none⟩ us).cfg uid ≠ some "admin" ∧
      (∀ e ∈ (runUpdates uid ⟨cfg, [], none⟩ us).effects, e.isAdminHandler = false) ∧
      (runUpdates uid ⟨cfg, [], none⟩ us).cfg.Admin = cfg.Admin :=
  have h := runUpdates_not_admin uid us ⟨cfg, [], none⟩ ha hm (by simp)
  ⟨h.2.1, h.2.2, h.1⟩

/-- C18 witness: the user 7, in ping mode, sends `/admin list`, fires a callback and sends
`list`. -/
theorem admin_mode_unreachable_witness :
    modeOf (runUpdates 7 ⟨sampleConfig, [], none⟩
        [(silentHandlers, Update.message ⟨"/admin list", "admin", "list"⟩),
          (silentHandlers, Update.callback "raw send admin"),
          (silentHandlers, Update.message ⟨"list", "", ""⟩)]).cfg 7 ≠ some "admin" :=
  (admin_mode_unreachable 7 sampleConfig _ (by decide) (by decide)).1

end Inkotools
